import Mathlib

/-!
Verification of the UML-modelling core of this repository: the pydantic
data model and validators of `base.py` and the PlantUML activity-diagram
linearizer of `display.py`, shallowly embedded as executable Lean
definitions.  Python `int` is embedded as `Int`, `Optional[str]` as
`Option String`, pydantic list fields as `List`, a `raise ValueError`
as the `.error` branch of an `Except`, and the structured content of
each error message as a constructor of a finding type.
-/

/-! ## Activity-diagram layer (base.py, "Activity Diagram" section) -/

/-- `node_type: Literal["start","end","action","decision","merge","fork","join"]`. -/
inductive ActivityNodeType
  | start
  | end_
  | action
  | decision
  | merge
  | fork
  | join
deriving DecidableEq, Repr

/-- `class ActivityNode(BaseModel)`: id, name, node_type, optional condition. -/
structure ActivityNode where
  id : Int
  name : String
  node_type : ActivityNodeType
  condition : Option String := none
deriving DecidableEq, Repr

/-- `class ActivityFlow(BaseModel)`: source_id, target_id, optional guard condition. -/
structure ActivityFlow where
  source_id : Int
  target_id : Int
  condition : Option String := none
deriving DecidableEq, Repr

/-- `class Swimlane(BaseModel)`. -/
structure Swimlane where
  id : Int
  name : String
  actor_reference : Option Int := none
deriving DecidableEq, Repr

/-- `class UseCaseLink(BaseModel)`. -/
structure UseCaseLink where
  diagram_id : Int
  use_case_id : Int
  flow_step : String
deriving DecidableEq, Repr

/-- `class ActivityDiagram(BaseModel)`: the candidate model.  The only
constraint pydantic enforces at construction is `max_length=25` on `nodes`;
there is no model validator on this class. -/
structure ActivityDiagram where
  id : Int
  name : String
  use_case_links : List UseCaseLink := []
  swimlanes : List Swimlane := []
  nodes : List ActivityNode := []
  flows : List ActivityFlow := []
deriving DecidableEq, Repr

/-- Pydantic construction failure for an `ActivityDiagram`: the only
possible failure is the `max_length=25` bound on the `nodes` field. -/
inductive ActivityBuildError
  | nodesTooLong
deriving DecidableEq, Repr

/-- Construct-and-validate for `ActivityDiagram`: pydantic accepts the
candidate iff `len(nodes) <= 25`; no other check runs. -/
def ActivityDiagram.build (d : ActivityDiagram) : Except ActivityBuildError ActivityDiagram :=
  if d.nodes.length ≤ 25 then .ok d else .error .nodesTooLong

/-! ## Use-case-diagram layer (base.py, "Use Case Diagram" section) -/

/-- `class Actor(BaseModel)`. -/
structure Actor where
  id : Int
  name : String
deriving DecidableEq, Repr

/-- `class UseCase(BaseModel)`. -/
structure UseCase where
  id : Int
  name : String
deriving DecidableEq, Repr

/-- `relationship_type: Literal["association","include","extend","generalization"]`. -/
inductive RelationshipType
  | association
  | include
  | extend
  | generalization
deriving DecidableEq, Repr

/-- `Literal["actor","use_case"]` endpoint kind tags. -/
inductive EndpointType
  | actor
  | use_case
deriving DecidableEq, Repr

/-- `class Relationship(BaseModel)` of a use-case diagram. -/
structure Relationship where
  relationship_type : RelationshipType
  source_id : Int
  source_type : EndpointType
  target_id : Int
  target_type : EndpointType
deriving DecidableEq, Repr

/-- `class UseCaseDiagram(BaseModel)`: the only constraint pydantic
enforces at construction is `max_length=15` on `use_cases`; there is no
model validator on this class. -/
structure UseCaseDiagram where
  id : Int
  name : String
  actors : List Actor := []
  use_cases : List UseCase := []
  relationships : List Relationship := []
deriving DecidableEq, Repr

/-- Pydantic construction failure for a `UseCaseDiagram`. -/
inductive UseCaseBuildError
  | useCasesTooLong
deriving DecidableEq, Repr

/-- Construct-and-validate for `UseCaseDiagram`: pydantic accepts the
candidate iff `len(use_cases) <= 15`; no other check runs. -/
def UseCaseDiagram.build (d : UseCaseDiagram) : Except UseCaseBuildError UseCaseDiagram :=
  if d.use_cases.length ≤ 15 then .ok d else .error .useCasesTooLong

/-! ## CRC-card layer (base.py, "Class-Responsibility-colaborator" section) -/

/-- `class Responsibility(BaseModel)`. -/
structure Responsibility where
  description : String
  collaborators : List String := []
deriving DecidableEq, Repr

/-- `class CRCCard(BaseModel)`. -/
structure CRCCard where
  class_name : String
  description : String
  superclass : Option String := none
  subclasses : List String := []
  attributes : List String := []
  responsibilities : List Responsibility := []
deriving DecidableEq, Repr

/-- `class CRCModel(BaseModel)`. -/
structure CRCModel where
  project_name : String
  cards : List CRCCard
deriving DecidableEq, Repr

/-- Structured content of the `ValueError`s raised by
`CRCModel.validate_collaborations_and_inheritance`. -/
inductive CRCFinding
  | superclassMissing (card sup : String)
  | subclassMissing (card sub : String)
  | collaboratorMissing (card resp collab : String)
deriving DecidableEq, Repr

/-- Fail-fast chaining of two checks: the first finding wins. -/
def firstSome {α : Type} (a b : Option α) : Option α :=
  match a with
  | some f => some f
  | none => b

/-- `if card.superclass and card.superclass not in valid_class_names: raise`:
the Python truthiness guard means `None` and `""` are both skipped. -/
def crcSuperCheck (valid : List String) (card : CRCCard) : Option CRCFinding :=
  match card.superclass with
  | some s =>
    if s ≠ "" ∧ s ∉ valid then some (CRCFinding.superclassMissing card.class_name s) else none
  | none => none

/-- `for subclass in card.subclasses: if subclass not in valid_class_names: raise`. -/
def crcSubCheck (valid : List String) (card : CRCCard) : Option CRCFinding :=
  card.subclasses.findSome? (fun sub =>
    if sub ∉ valid then some (CRCFinding.subclassMissing card.class_name sub) else none)

/-- `for resp in card.responsibilities: for collaborator in resp.collaborators: ...`. -/
def crcCollabCheck (valid : List String) (card : CRCCard) : Option CRCFinding :=
  card.responsibilities.findSome? (fun resp =>
    resp.collaborators.findSome? (fun collab =>
      if collab ∉ valid then
        some (CRCFinding.collaboratorMissing card.class_name resp.description collab)
      else none))

/-- The per-card body of `validate_collaborations_and_inheritance`:
superclass first, then each subclass in order, then each responsibility's
collaborators in order; the first unresolved name yields the finding. -/
def crcCheckCard (valid : List String) (card : CRCCard) : Option CRCFinding :=
  firstSome (crcSuperCheck valid card)
    (firstSome (crcSubCheck valid card) (crcCollabCheck valid card))

/-- `CRCModel.validate_collaborations_and_inheritance`: builds the set of
valid class names, walks the cards in order and raises on the first
unresolved reference; on success returns `self` unchanged. -/
def CRCModel.validate (m : CRCModel) : Except CRCFinding CRCModel :=
  match m.cards.findSome? (crcCheckCard (m.cards.map (·.class_name))) with
  | some f => .error f
  | none => .ok m

/-! ## Class-diagram layer (base.py, "Class Diagram" section).
These are the classes defined at lines 374-468, before the "Object
Diagram" section shadows `UMLClass`/`Attribute`/`Association`/`ClassDiagram`
with simplified versions; the validator `validate_diagram_integrity`
belongs to this rich version. -/

namespace ClassLayer

/-- `Visibility = Literal["public","private","protected"]`. -/
inductive Visibility
  | public
  | private_
  | protected_
deriving DecidableEq, Repr

/-- `class Attribute(BaseModel)` (rich version, line 376). -/
structure Attribute where
  name : String
  type : String := "string"
  visibility : Visibility := .private_
deriving DecidableEq, Repr

/-- `class Parameter(BaseModel)`. -/
structure Parameter where
  name : String
  type : String
deriving DecidableEq, Repr

/-- `class Method(BaseModel)`. -/
structure Method where
  name : String
  parameters : List Parameter := []
  return_type : String := "void"
  visibility : Visibility := .public
deriving DecidableEq, Repr

/-- `class UMLClass(BaseModel)` (rich version, line 394). -/
structure UMLClass where
  name : String
  description : String
  is_abstract : Bool := false
  attributes : List Attribute := []
  methods : List Method := []
deriving DecidableEq, Repr

/-- `class Generalization(BaseModel)`: subclass inherits from superclass. -/
structure Generalization where
  subclass : String
  superclass : String
deriving DecidableEq, Repr

/-- `type: Literal["association","aggregation","composition"]`. -/
inductive AssociationType
  | association
  | aggregation
  | composition
deriving DecidableEq, Repr

/-- `class Association(BaseModel)` (rich version, line 407). -/
structure Association where
  type : AssociationType := .association
  class1_name : String
  class1_multiplicity : String := "1"
  class2_name : String
  class2_multiplicity : String := "1"
  description : Option String := none
deriving DecidableEq, Repr

/-- `class ClassDiagram(BaseModel)` (rich version, line 420). -/
structure ClassDiagram where
  project_name : String
  classes : List UMLClass
  associations : List Association := []
  generalizations : List Generalization := []
deriving DecidableEq, Repr

/-- Structured content of the `ValueError`s raised by
`ClassDiagram.validate_diagram_integrity`. -/
inductive CDFinding
  | duplicateClassNames
  | assocClassNotFound (name : String)
  | genSubclassNotFound (name : String)
  | genSuperclassNotFound (name : String)
  | circularInheritance (name : String)
deriving DecidableEq, Repr

/-- `inheritance_graph: Dict[str, str] = {gen.subclass: gen.superclass for gen in self.generalizations}`:
a Python dict comprehension keeps, for each subclass key, the superclass of
the LAST generalization with that subclass. -/
def inhLookup (gens : List Generalization) (s : String) : Option String :=
  (gens.reverse.find? (fun g => g.subclass == s)).map (·.superclass)

/-- Key iteration order of a Python dict built by comprehension: first
occurrence of each key, in insertion order. -/
def dictKeys (l : List String) : List String :=
  l.foldl (fun acc s => if s ∈ acc then acc else acc ++ [s]) []

/-- The `while curr_node in inheritance_graph` loop of the cycle check:
follow the subclass-to-superclass mapping from `curr`, accumulating the
visited `path`; return `some c` when the walk revisits `c` already on the
path (the `raise` naming `curr_node`), `none` when the walk leaves the
mapping's domain.  `fuel` bounds the iteration count; the validator calls
it with fuel `gens.length + 1`, which theorem `walkInheritance_cycle_error`
shows is never exhausted before a revisit on a cyclic input. -/
def walkInheritance (gens : List Generalization) : Nat → List String → String → Option String
  | 0, _, _ => none
  | fuel + 1, path, curr =>
    match inhLookup gens curr with
    | none => none
    | some next =>
      if next ∈ path then some next
      else walkInheritance gens fuel (next :: path) next

/-- Step 3 of `validate_diagram_integrity`: for each distinct subclass key
(in first-occurrence order), walk the inheritance mapping starting from it
with `path = {start_node}`; the first revisited class name is the finding. -/
def checkCycles (gens : List Generalization) : Option String :=
  (dictKeys (gens.map (·.subclass))).findSome? (fun s =>
    walkInheritance gens (gens.length + 1) [s] s)

/-- Step 2 of `validate_diagram_integrity`: each association's and then each
generalization's endpoints must be declared class names; checked in list
order, `class1`/`subclass` before `class2`/`superclass`. -/
def checkEndpoints (cd : ClassDiagram) (names : List String) : Option CDFinding :=
  match cd.associations.findSome? (fun a =>
      if a.class1_name ∉ names then some (CDFinding.assocClassNotFound a.class1_name)
      else if a.class2_name ∉ names then some (CDFinding.assocClassNotFound a.class2_name)
      else none) with
  | some f => some f
  | none =>
    cd.generalizations.findSome? (fun g =>
      if g.subclass ∉ names then some (CDFinding.genSubclassNotFound g.subclass)
      else if g.superclass ∉ names then some (CDFinding.genSuperclassNotFound g.superclass)
      else none)

/-- `ClassDiagram.validate_diagram_integrity`: (1) class names unique
(`len(set(names)) == len(classes)`), (2) relationship endpoints resolve,
(3) inheritance acyclic; on success returns `self` unchanged. -/
def ClassDiagram.validate (cd : ClassDiagram) : Except CDFinding ClassDiagram :=
  if ((cd.classes.map (·.name)).dedup.length ≠ cd.classes.length) then
    .error .duplicateClassNames
  else
    match checkEndpoints cd (cd.classes.map (·.name)) with
    | some f => .error f
    | none =>
      match checkCycles cd.generalizations with
      | some c => .error (.circularInheritance c)
      | none => .ok cd

end ClassLayer

/-! ## Object-diagram layer (base.py, "Object Diagram" section).
At lines 475-478 the source re-declares simplified `UMLClass`, `Attribute`,
`Association` and `ClassDiagram`, shadowing the rich versions; the
`ObjectDiagram` validator works against these.  Note that the simplified
`UMLClass` is declared BEFORE the simplified `Attribute`, so its
`attributes: List[Attribute]` still refers to the rich `ClassLayer.Attribute`.
The validator reads only the `.name` of attributes. -/

namespace ObjectLayer

/-- `class Attribute(BaseModel): name: str` (line 476; declared after the
simplified `UMLClass` and referenced by nothing afterwards). -/
structure Attribute where
  name : String
deriving DecidableEq, Repr

/-- `class UMLClass(BaseModel): name: str; attributes: List[Attribute] = []`
(line 475; `Attribute` here resolves to the rich `ClassLayer.Attribute`). -/
structure UMLClass where
  name : String
  attributes : List ClassLayer.Attribute := []
deriving DecidableEq, Repr

/-- `class Association(BaseModel): class1_name: str; class2_name: str` (line 477). -/
structure Association where
  class1_name : String
  class2_name : String
deriving DecidableEq, Repr

/-- `class ClassDiagram(BaseModel): classes; associations` (line 478). -/
structure ClassDiagram where
  classes : List UMLClass
  associations : List Association := []
deriving DecidableEq, Repr

/-- `class AttributeValue(BaseModel)`: the validator only reads `.name`;
the `Any`-typed value is embedded as a string. -/
structure AttributeValue where
  name : String
  value : String
deriving DecidableEq, Repr

/-- `class DiagramObject(BaseModel)`. -/
structure DiagramObject where
  instance_name : String
  class_name : String
  attribute_values : List AttributeValue := []
deriving DecidableEq, Repr

/-- `class Link(BaseModel)`. -/
structure Link where
  object1_instance_name : String
  object2_instance_name : String
  association_description : Option String := none
deriving DecidableEq, Repr

/-- `class ObjectDiagram(BaseModel)`. -/
structure ObjectDiagram where
  name : String
  class_diagram : ClassDiagram
  objects : List DiagramObject
  links : List Link := []
deriving DecidableEq, Repr

/-- Structured content of the `ValueError`s raised by
`ObjectDiagram.validate_against_class_diagram`. -/
inductive ODFinding
  | duplicateInstance (inst : String)
  | unknownClass (inst cls : String)
  | invalidAttribute (inst cls attr : String)
  | linkObjectMissing (inst : String)
  | associationNotDeclared (inst1 cls1 inst2 cls2 : String)
deriving DecidableEq, Repr

/-- `class_map: Dict[str, UMLClass] = {cls.name: cls for cls in classes}`:
for a duplicated class name the last entry wins. -/
def classLookup (classes : List UMLClass) (n : String) : Option UMLClass :=
  classes.reverse.find? (fun c => c.name == n)

/-- Code-point-wise lexicographic comparison of character lists: the order
Python's `sorted` uses on strings. -/
def charListLe : List Char → List Char → Bool
  | [], _ => true
  | _ :: _, [] => false
  | a :: as, b :: bs =>
    if a.toNat < b.toNat then true
    else if b.toNat < a.toNat then false
    else charListLe as bs

/-- Python's `<=` on strings: lexicographic over code points. -/
def strLe (a b : String) : Bool := charListLe a.data b.data

/-- `tuple(sorted((a, b)))`: the canonicalized, order-insensitive key under
which associations are stored and looked up. -/
def sortedPair (a b : String) : String × String :=
  if strLe a b then (a, b) else (b, a)

/-- `valid_associations: Set[Tuple[str, str]]` built from the class
diagram's associations (membership is all the validator uses). -/
def validAssociations (cd : ClassDiagram) : List (String × String) :=
  cd.associations.map (fun a => sortedPair a.class1_name a.class2_name)

/-- Step 2's per-object checks, in source order: duplicate instance name
against the object map built so far, then class existence, then each
attribute value's name against the class's declared attribute names. -/
def checkObject (classes : List UMLClass) (objMap : List DiagramObject)
    (obj : DiagramObject) : Option ODFinding :=
  if obj.instance_name ∈ objMap.map (·.instance_name) then
    some (.duplicateInstance obj.instance_name)
  else
    match classLookup classes obj.class_name with
    | none => some (.unknownClass obj.instance_name obj.class_name)
    | some cls =>
      obj.attribute_values.findSome? (fun av =>
        if av.name ∉ cls.attributes.map (·.name) then
          some (ODFinding.invalidAttribute obj.instance_name obj.class_name av.name)
        else none)

/-- Step 2's loop: process objects in order, raising on the first failing
check, otherwise inserting the object into `object_map`. -/
def buildObjectMap (classes : List UMLClass) :
    List DiagramObject → List DiagramObject → Except ODFinding (List DiagramObject)
  | acc, [] => .ok acc
  | acc, obj :: rest =>
    match checkObject classes acc obj with
    | some f => .error f
    | none => buildObjectMap classes (acc ++ [obj]) rest

/-- Step 3's per-link checks, in source order: both endpoints must be in
`object_map`, and the sorted pair of their classes must be a stored
association key. -/
def checkLink (assocs : List (String × String)) (objMap : List DiagramObject)
    (link : Link) : Option ODFinding :=
  match objMap.find? (fun o => o.instance_name == link.object1_instance_name) with
  | none => some (.linkObjectMissing link.object1_instance_name)
  | some o1 =>
    match objMap.find? (fun o => o.instance_name == link.object2_instance_name) with
    | none => some (.linkObjectMissing link.object2_instance_name)
    | some o2 =>
      if sortedPair o1.class_name o2.class_name ∈ assocs then none
      else some (.associationNotDeclared o1.instance_name o1.class_name
                  o2.instance_name o2.class_name)

/-- `ObjectDiagram.validate_against_class_diagram`: build lookups, validate
the objects, validate the links; on success returns `self` unchanged. -/
def ObjectDiagram.validate (od : ObjectDiagram) : Except ODFinding ObjectDiagram :=
  match buildObjectMap od.class_diagram.classes [] od.objects with
  | .error f => .error f
  | .ok objMap =>
    match od.links.findSome? (checkLink (validAssociations od.class_diagram) objMap) with
    | some f => .error f
    | none => .ok od

end ObjectLayer

/-! ## Control-flow linearizer (display.py, `generate_plantuml_activity`
and its helpers).  The Python recursion carries a mutable `lines` list
and `processed_nodes` set; the embedding threads them as a `WalkState`.
The recursion of `_process_flows_from_node` is bounded by a fuel
parameter; the top-level renderer supplies fuel `nodes.length + 1`,
which theorem `processFlowsFromNode_no_outOfFuel` proves sufficient
(the visited set strictly grows inside the finite node-id set at every
recursive call). -/

/-- The mutable traversal state of the Python walk: the `lines` output
accumulator and the `processed_nodes` visited set. -/
structure WalkState where
  lines : List String
  processed : List Int
deriving DecidableEq, Repr

/-- How a walk invocation can fail to return normally: a `KeyError` from
`node_map[flow.target_id]` on a dangling target, or fuel exhaustion (an
artifact of the embedding, proved unreachable at the fuel the renderer
uses). -/
inductive WalkErr
  | keyError (id : Int)
  | outOfFuel
deriving DecidableEq, Repr

/-- `node_map = {node.id: node for node in diagram.nodes}`: last entry wins
for a duplicated id; a successful lookup returns a node whose `id` equals
the key. -/
def nodeLookup (nodes : List ActivityNode) (k : Int) : Option ActivityNode :=
  nodes.reverse.find? (fun n => n.id == k)

/-- `outgoing_flows = [f for f in flows if f.source_id == node_id]`. -/
def outgoingFlows (flows : List ActivityFlow) (nodeId : Int) : List ActivityFlow :=
  flows.filter (fun f => f.source_id == nodeId)

/-- Python truthiness of an `Optional[str]`: `None` and `""` are falsy. -/
def condTruthy : Option String → Bool
  | none => false
  | some s => s ≠ ""

/-- Python `opt or default` on an `Optional[str]`: the default replaces
both `None` and `""`. -/
def condOrDefault (o : Option String) (d : String) : String :=
  match o with
  | some s => if s = "" then d else s
  | none => d

/-- One iteration of the `_handle_decision_branches` loop body, after the
`elseif` label of the surrounding fold: look up the target (KeyError on a
dangling id), skip it entirely if already visited, otherwise mark it
visited, emit it if it is an `action` or `end` node, and continue the main
walk from it unless it is an `end` node. -/
def decisionBranchStep (recur : Int → WalkState → Except WalkErr WalkState)
    (nodes : List ActivityNode) (flow : ActivityFlow) (st : WalkState) :
    Except WalkErr WalkState :=
  match nodeLookup nodes flow.target_id with
  | none => .error (.keyError flow.target_id)
  | some target =>
    if target.id ∈ st.processed then .ok st
    else
      let st1 : WalkState := { st with processed := target.id :: st.processed }
      let st2 : WalkState :=
        match target.node_type with
        | .action => { st1 with lines := st1.lines ++ [":" ++ target.name ++ ";"] }
        | .end_ => { st1 with lines := st1.lines ++ ["stop"] }
        | _ => st1
      match target.node_type with
      | .end_ => .ok st2
      | _ => recur target.id st2

/-- The `for i, flow in enumerate(outgoing_flows)` loop of
`_handle_decision_branches`: every branch after the first emits its
`elseif (<condition-or-"no">) then` label (before the visited check, so
even for an already-visited target). -/
def decisionBranchesGo (recur : Int → WalkState → Except WalkErr WalkState)
    (nodes : List ActivityNode) :
    List ActivityFlow → Bool → WalkState → Except WalkErr WalkState
  | [], _, st => .ok st
  | flow :: rest, isFirst, st => do
    let st0 : WalkState :=
      if isFirst then st
      else { st with lines := st.lines ++ ["elseif (" ++ condOrDefault flow.condition "no" ++ ") then"] }
    let st' ← decisionBranchStep recur nodes flow st0
    decisionBranchesGo recur nodes rest false st'

/-- `_handle_decision_branches(decision_node_id, ...)`. -/
def handleDecisionBranches (recur : Int → WalkState → Except WalkErr WalkState)
    (nodes : List ActivityNode) (flows : List ActivityFlow) (decisionId : Int)
    (st : WalkState) : Except WalkErr WalkState :=
  decisionBranchesGo recur nodes (outgoingFlows flows decisionId) true st

/-- One iteration of the `_handle_fork_branches` loop body, after the
`fork again` separator of the surrounding fold: look up the target, skip
it if already visited, otherwise mark it visited, emit it only if it is an
`action` node, and continue the main walk from it unless it is an `end` or
`join` node. -/
def forkBranchStep (recur : Int → WalkState → Except WalkErr WalkState)
    (nodes : List ActivityNode) (flow : ActivityFlow) (st : WalkState) :
    Except WalkErr WalkState :=
  match nodeLookup nodes flow.target_id with
  | none => .error (.keyError flow.target_id)
  | some target =>
    if target.id ∈ st.processed then .ok st
    else
      let st1 : WalkState := { st with processed := target.id :: st.processed }
      let st2 : WalkState :=
        match target.node_type with
        | .action => { st1 with lines := st1.lines ++ [":" ++ target.name ++ ";"] }
        | _ => st1
      match target.node_type with
      | .end_ => .ok st2
      | .join => .ok st2
      | _ => recur target.id st2

/-- The `for i, flow in enumerate(outgoing_flows)` loop of
`_handle_fork_branches`: every branch after the first emits `fork again`
(before the visited check). -/
def forkBranchesGo (recur : Int → WalkState → Except WalkErr WalkState)
    (nodes : List ActivityNode) :
    List ActivityFlow → Bool → WalkState → Except WalkErr WalkState
  | [], _, st => .ok st
  | flow :: rest, isFirst, st => do
    let st0 : WalkState :=
      if isFirst then st else { st with lines := st.lines ++ ["fork again"] }
    let st' ← forkBranchStep recur nodes flow st0
    forkBranchesGo recur nodes rest false st'

/-- `_handle_fork_branches(fork_node_id, ...)`. -/
def handleForkBranches (recur : Int → WalkState → Except WalkErr WalkState)
    (nodes : List ActivityNode) (flows : List ActivityFlow) (forkId : Int)
    (st : WalkState) : Except WalkErr WalkState :=
  forkBranchesGo recur nodes (outgoingFlows flows forkId) true st

/-- One iteration of the `for flow in outgoing_flows` loop body of
`_process_flows_from_node`: look up the target (KeyError on a dangling
id); if it is not yet visited, mark it visited, emit the guard-condition
note when the flow's condition is truthy, emit the target according to its
`node_type` (decision and fork recurse into their branch handlers inside
their `if .. endif` / `fork .. end fork` wrappers; merge and join emit
their convergence marker comments), and finally continue the walk from the
target unless its type is `end`, `decision` or `fork`. -/
def handleOneFlow (recur : Int → WalkState → Except WalkErr WalkState)
    (nodes : List ActivityNode) (flows : List ActivityFlow)
    (flow : ActivityFlow) (st : WalkState) : Except WalkErr WalkState :=
  match nodeLookup nodes flow.target_id with
  | none => .error (.keyError flow.target_id)
  | some target =>
    if target.id ∈ st.processed then .ok st
    else
      let st1 : WalkState := { st with processed := target.id :: st.processed }
      let st2 : WalkState :=
        if condTruthy flow.condition then
          { st1 with lines := st1.lines ++ ["note right : " ++ flow.condition.getD ""] }
        else st1
      do
        let st3 : WalkState ←
          match target.node_type with
          | .action => pure { st2 with lines := st2.lines ++ [":" ++ target.name ++ ";"] }
          | .decision => do
            let hdr := "if (" ++ condOrDefault target.condition "condition" ++ ") then (yes)"
            let stA : WalkState := { st2 with lines := st2.lines ++ [hdr] }
            let stB ← handleDecisionBranches recur nodes flows target.id stA
            pure { stB with lines := stB.lines ++ ["endif"] }
          | .fork => do
            let stA : WalkState := { st2 with lines := st2.lines ++ ["fork"] }
            let stB ← handleForkBranches recur nodes flows target.id stA
            pure { stB with lines := stB.lines ++ ["end fork"] }
          | .merge => pure { st2 with lines := st2.lines ++ ["# Merge point"] }
          | .join => pure { st2 with lines := st2.lines ++ ["# Join point"] }
          | .end_ => pure { st2 with lines := st2.lines ++ ["stop"] }
          | .start => pure st2
        match target.node_type with
        | .end_ => pure st3
        | .decision => pure st3
        | .fork => pure st3
        | _ => recur target.id st3

/-- Sequential processing of a list of pending outgoing flows by
`handleOneFlow`. -/
def flowsGo (recur : Int → WalkState → Except WalkErr WalkState)
    (nodes : List ActivityNode) (flows : List ActivityFlow) :
    List ActivityFlow → WalkState → Except WalkErr WalkState
  | [], st => .ok st
  | flow :: rest, st => do
    let st' ← handleOneFlow recur nodes flows flow st
    flowsGo recur nodes flows rest st'

/-- `_process_flows_from_node(node_id, lines, flows, node_map, processed_nodes)`:
process each outgoing flow of `node_id` in edge-set order.  All recursive
calls of the Python function (direct, and through the decision/fork branch
handlers) decrement the fuel. -/
def processFlowsFromNode (nodes : List ActivityNode) (flows : List ActivityFlow) :
    Nat → Int → WalkState → Except WalkErr WalkState
  | 0, _, _ => .error .outOfFuel
  | fuel + 1, nodeId, st =>
    flowsGo (processFlowsFromNode nodes flows fuel) nodes flows
      (outgoingFlows flows nodeId) st

/-- The header lines built by `generate_plantuml_activity` before the walk:
`@startuml`, title, blank line, the use-case-link note block when links are
present, and the first swimlane's marker when swimlanes are present. -/
def activityHeader (d : ActivityDiagram) : List String :=
  ["@startuml", "title " ++ d.name, ""]
  ++ (if d.use_case_links.isEmpty then [] else
      ["note top", "**Linked Use Cases:**"]
      ++ d.use_case_links.map (fun l =>
          "• UC" ++ toString l.use_case_id ++ " (Diagram " ++ toString l.diagram_id ++ "): " ++ l.flow_step)
      ++ ["end note", ""])
  ++ (match d.swimlanes with
      | [] => []
      | sl :: _ => ["|" ++ sl.name ++ "|", ""])

/-- `generate_plantuml_activity(diagram)` as its ordered line sequence
(the Python returns `"\n".join(lines)`): header; then, if a start node
exists, `start`, the start node is marked visited, and the walk runs from
it; finally `@enduml`.  A `KeyError` raised inside the walk propagates. -/
def generateActivityLines (d : ActivityDiagram) : Except WalkErr (List String) :=
  let header := activityHeader d
  match d.nodes.find? (fun n => n.node_type == .start) with
  | none => .ok (header ++ ["@enduml"])
  | some startNode => do
    let st ← processFlowsFromNode d.nodes d.flows (d.nodes.length + 1) startNode.id
      { lines := header ++ ["start"], processed := [startNode.id] }
    pure (st.lines ++ ["@enduml"])

/-- `generate_plantuml_activity`'s actual string result. -/
def generatePlantumlActivity (d : ActivityDiagram) : Except WalkErr String :=
  (generateActivityLines d).map (String.intercalate "\n")

/-! ## Derived notions used by the verification -/

/-- The distinct node ids of a node list (the key set of `node_map`). -/
def nodeIds (nodes : List ActivityNode) : List Int :=
  (nodes.map (·.id)).dedup

/-- How many node ids of the diagram the walk has not yet visited; the
termination measure of the recursive walk. -/
def unprocessedCount (nodes : List ActivityNode) (st : WalkState) : Nat :=
  ((nodeIds nodes).filter (fun i => decide (i ∉ st.processed))).length

/-- A walk continuation only ever grows the visited set. -/
def RecurMono (recur : Int → WalkState → Except WalkErr WalkState) : Prop :=
  ∀ id st st', recur id st = .ok st' → st.processed ⊆ st'.processed

/-- A walk continuation that cannot exhaust its fuel while the number of
unvisited node ids stays below `bound`. -/
def RecurSuff (nodes : List ActivityNode)
    (recur : Int → WalkState → Except WalkErr WalkState) (bound : Nat) : Prop :=
  ∀ id st, unprocessedCount nodes st < bound → recur id st ≠ .error .outOfFuel

namespace ClassLayer

/-- `c :: rest` is a cycle of the subclass-to-superclass mapping `f`:
consecutive elements are mapped to each other and the last element maps
back to `c`. -/
def IsFCycle (f : String → Option String) (c : String) (rest : List String) : Prop :=
  List.Chain (fun a b => f a = some b) c rest ∧
  f ((c :: rest).getLast (by simp)) = some c

/-- The mapping `f` contains a (simple) cycle. -/
def CycleExists (f : String → Option String) : Prop :=
  ∃ c rest, (c :: rest).Nodup ∧ IsFCycle f c rest

/-- `x` lies on some cycle of the mapping `f`. -/
def OnCycle (f : String → Option String) (x : String) : Prop :=
  ∃ c rest, (c :: rest).Nodup ∧ IsFCycle f c rest ∧ x ∈ c :: rest

end ClassLayer

/-- Every soft reference of a CRC card set resolves, with the superclass
reference read through the source's truthiness guard (an empty-string
superclass is never looked up). -/
def CRCResolved (m : CRCModel) : Prop :=
  ∀ card ∈ m.cards,
    (∀ s, card.superclass = some s → s ≠ "" → s ∈ m.cards.map (·.class_name)) ∧
    (∀ sub ∈ card.subclasses, sub ∈ m.cards.map (·.class_name)) ∧
    (∀ resp ∈ card.responsibilities, ∀ collab ∈ resp.collaborators,
      collab ∈ m.cards.map (·.class_name))

/-- The finding produced by `CRCModel.validate` names a genuinely
unresolved reference of a genuinely existing card. -/
def CRCOffends (m : CRCModel) : CRCFinding → Prop
  | .superclassMissing card sup =>
    ∃ c ∈ m.cards, c.class_name = card ∧ c.superclass = some sup ∧ sup ≠ "" ∧
      sup ∉ m.cards.map (·.class_name)
  | .subclassMissing card sub =>
    ∃ c ∈ m.cards, c.class_name = card ∧ sub ∈ c.subclasses ∧
      sub ∉ m.cards.map (·.class_name)
  | .collaboratorMissing card resp collab =>
    ∃ c ∈ m.cards, c.class_name = card ∧ ∃ r ∈ c.responsibilities,
      r.description = resp ∧ collab ∈ r.collaborators ∧
      collab ∉ m.cards.map (·.class_name)

/-! ## Concrete instances used by counterexamples and witnesses -/

/-- Linearizer scenario 1: `[start(1), action(2,"Login"), end(3)]`,
flows `[(1→2),(2→3)]`. -/
def dLogin : ActivityDiagram :=
  { id := 1, name := "D",
    nodes := [⟨1, "Start", .start, none⟩, ⟨2, "Login", .action, none⟩, ⟨3, "End", .end_, none⟩],
    flows := [⟨1, 2, none⟩, ⟨2, 3, none⟩] }

/-- A start node flowing into a merge node with a downstream action and end. -/
def dMerge : ActivityDiagram :=
  { id := 2, name := "D",
    nodes := [⟨1, "Start", .start, none⟩, ⟨2, "M", .merge, none⟩, ⟨3, "A", .action, none⟩,
              ⟨4, "End", .end_, none⟩],
    flows := [⟨1, 2, none⟩, ⟨2, 3, none⟩, ⟨3, 4, none⟩] }

/-- Linearizer scenario 3 shape: a fork with two action branches that flow
into a join, plus an action node downstream of the join. -/
def dFork : ActivityDiagram :=
  { id := 3, name := "D",
    nodes := [⟨1, "Start", .start, none⟩, ⟨2, "F", .fork, none⟩, ⟨3, "A", .action, none⟩,
              ⟨4, "B", .action, none⟩, ⟨5, "J", .join, none⟩, ⟨6, "C", .action, none⟩],
    flows := [⟨1, 2, none⟩, ⟨2, 3, none⟩, ⟨2, 4, none⟩, ⟨3, 5, none⟩, ⟨4, 5, none⟩, ⟨5, 6, none⟩] }

/-- A fork both of whose branch flows target the join directly, with an
action node downstream of the join. -/
def dForkDirect : ActivityDiagram :=
  { id := 4, name := "D",
    nodes := [⟨1, "Start", .start, none⟩, ⟨2, "F", .fork, none⟩, ⟨3, "J", .join, none⟩,
              ⟨4, "C", .action, none⟩],
    flows := [⟨1, 2, none⟩, ⟨2, 3, none⟩, ⟨2, 3, none⟩, ⟨3, 4, none⟩] }

/-- A diagram whose flows contain the directed cycle `2 → 3 → 2`. -/
def dCycle : ActivityDiagram :=
  { id := 5, name := "D",
    nodes := [⟨1, "Start", .start, none⟩, ⟨2, "A", .action, none⟩, ⟨3, "B", .action, none⟩],
    flows := [⟨1, 2, none⟩, ⟨2, 3, none⟩, ⟨3, 2, none⟩] }

/-- An activity diagram whose two nodes share the id `1`. -/
def dDupAct : ActivityDiagram :=
  { id := 6, name := "Dup",
    nodes := [⟨1, "X", .action, none⟩, ⟨1, "Y", .action, none⟩],
    flows := [] }

/-- An activity diagram with no start node, no end node, and a flow whose
target id `99` resolves to no node. -/
def dNoStart : ActivityDiagram :=
  { id := 7, name := "NoStart",
    nodes := [⟨1, "A", .action, none⟩],
    flows := [⟨1, 99, none⟩] }

/-- An activity diagram candidate with 26 nodes. -/
def dBig26 : ActivityDiagram :=
  { id := 8, name := "Big",
    nodes := (List.range 26).map (fun i => ⟨(i : Int), "n", .action, none⟩),
    flows := [] }

/-- A use-case diagram whose two use cases share the id `1`. -/
def ucdDup : UseCaseDiagram :=
  { id := 1, name := "U", actors := [],
    use_cases := [⟨1, "a"⟩, ⟨1, "b"⟩], relationships := [] }

/-- A use-case diagram candidate with 16 use cases. -/
def ucd16 : UseCaseDiagram :=
  { id := 2, name := "U16", actors := [],
    use_cases := (List.range 16).map (fun i => ⟨(i : Int), "u"⟩), relationships := [] }

/-- A CRC card set with two cards sharing the class name `"A"`. -/
def crcDup : CRCModel :=
  { project_name := "p",
    cards := [⟨"A", "first", none, [], [], []⟩, ⟨"A", "second", none, [], [], []⟩] }

/-- A CRC card whose superclass is present but the empty string, which the
truthiness guard of the validator never looks up. -/
def crcEmptySuper : CRCModel :=
  { project_name := "p", cards := [⟨"A", "d", some "", [], [], []⟩] }

/-- A fully resolved two-card CRC model. -/
def crcGood : CRCModel :=
  { project_name := "p",
    cards := [⟨"A", "d", some "B", [], [], [⟨"r", ["B"]⟩]⟩, ⟨"B", "d", none, ["A"], [], []⟩] }

/-- A CRC card whose superclass `"Z"` resolves to no card. -/
def crcBad : CRCModel :=
  { project_name := "p", cards := [⟨"A", "d", some "Z", [], [], []⟩] }

/-- A class diagram whose generalizations form the cycle `A→B→C→A`. -/
def cdCyc : ClassLayer.ClassDiagram :=
  { project_name := "p",
    classes := [⟨"A", "d", false, [], []⟩, ⟨"B", "d", false, [], []⟩, ⟨"C", "d", false, [], []⟩],
    associations := [],
    generalizations := [⟨"A", "B"⟩, ⟨"B", "C"⟩, ⟨"C", "A"⟩] }

/-- A class diagram whose generalizations form a three-deep inheritance
chain `D→C→B→A` (a DAG). -/
def cdChain : ClassLayer.ClassDiagram :=
  { project_name := "p",
    classes := [⟨"A", "d", false, [], []⟩, ⟨"B", "d", false, [], []⟩, ⟨"C", "d", false, [], []⟩,
                ⟨"D", "d", false, [], []⟩],
    associations := [],
    generalizations := [⟨"B", "A"⟩, ⟨"C", "B"⟩, ⟨"D", "C"⟩] }

/-- A class diagram with two classes named `"A"`. -/
def cdDup : ClassLayer.ClassDiagram :=
  { project_name := "p",
    classes := [⟨"A", "one", false, [], []⟩, ⟨"A", "two", false, [], []⟩],
    associations := [], generalizations := [] }

/-- A valid object diagram whose link is backed by an association declared
in the opposite order (`(B,A)` declared, link connects an `A` to a `B`). -/
def odGood : ObjectLayer.ObjectDiagram :=
  { name := "od",
    class_diagram := { classes := [⟨"A", []⟩, ⟨"B", []⟩], associations := [⟨"B", "A"⟩] },
    objects := [⟨"x", "A", []⟩, ⟨"y", "B", []⟩],
    links := [⟨"x", "y", none⟩] }

/-- The same object diagram without any association behind its link. -/
def odBad : ObjectLayer.ObjectDiagram :=
  { name := "od",
    class_diagram := { classes := [⟨"A", []⟩, ⟨"B", []⟩], associations := [] },
    objects := [⟨"x", "A", []⟩, ⟨"y", "B", []⟩],
    links := [⟨"x", "y", none⟩] }

/-- C10: ActivityDiagram construction succeeds exactly on candidates with
at most 25 nodes, UseCaseDiagram construction exactly on candidates with at
most 15 use cases, and a successful construction returns the candidate. -/
theorem C10_size_limits :
    (∀ d : ActivityDiagram, (∃ m, d.build = .ok m) ↔ d.nodes.length ≤ 25) ∧
    (∀ (d : ActivityDiagram) m, d.build = .ok m → m = d) ∧
    (∀ u : UseCaseDiagram, (∃ m, u.build = .ok m) ↔ u.use_cases.length ≤ 15) ∧
    (∀ (u : UseCaseDiagram) m, u.build = .ok m → m = u) := by
  refine ⟨fun d => ?_, fun d m h => ?_, fun u => ?_, fun u m h => ?_⟩
  · constructor
    · rintro ⟨m, hm⟩
      unfold ActivityDiagram.build at hm
      by_contra hlen
      rw [if_neg hlen] at hm
      cases hm
    · intro hlen
      exact ⟨d, by unfold ActivityDiagram.build; rw [if_pos hlen]⟩
  · unfold ActivityDiagram.build at h
    split at h
    · cases h; rfl
    · cases h
  · constructor
    · rintro ⟨m, hm⟩
      unfold UseCaseDiagram.build at hm
      by_contra hlen
      rw [if_neg hlen] at hm
      cases hm
    · intro hlen
      exact ⟨u, by unfold UseCaseDiagram.build; rw [if_pos hlen]⟩
  · unfold UseCaseDiagram.build at h
    split at h
    · cases h; rfl
    · cases h

theorem C10_witness :
    (∃ m, ActivityDiagram.build dLogin = .ok m) ∧
    (∃ m, UseCaseDiagram.build ucdDup = .ok m) ∧
    dLogin = dLogin ∧ ucdDup = ucdDup :=
  ⟨(C10_size_limits.1 dLogin).mpr (by decide),
   (C10_size_limits.2.2.1 ucdDup).mpr (by decide),
   C10_size_limits.2.1 dLogin dLogin rfl,
   C10_size_limits.2.2.2 ucdDup ucdDup rfl⟩

/-- C3 counterexample: a candidate with no start node, no end node, and a
dangling flow target is accepted by construction. -/
theorem C3_counterexample :
    ActivityDiagram.build dNoStart = .ok dNoStart ∧
    (dNoStart.nodes.filter (fun n => n.node_type == .start)).length = 0 ∧
    (dNoStart.nodes.filter (fun n => n.node_type == .end_)).length = 0 ∧
    ¬ (∀ f ∈ dNoStart.flows, f.target_id ∈ dNoStart.nodes.map (·.id)) :=
  ⟨rfl, by decide, by decide, by decide⟩

/-- C3 amended: construction of an ActivityDiagram performs no structural
validation at all; every candidate with at most 25 nodes is accepted
unchanged, regardless of start/end node counts and flow endpoints. -/
theorem C3_no_structural_validation :
    ∀ d : ActivityDiagram, d.nodes.length ≤ 25 → ActivityDiagram.build d = .ok d := by
  intro d h
  unfold ActivityDiagram.build
  exact if_pos h

theorem C3_witness : ActivityDiagram.build dNoStart = .ok dNoStart :=
  C3_no_structural_validation dNoStart (by decide)

/-- C5 counterexample: on scenario 1 the renderer returns the full PlantUML
document, not the bare three-line sequence the claim states. -/
theorem C5_counterexample :
    generateActivityLines dLogin =
      .ok ["@startuml", "title D", "", "start", ":Login;", "stop", "@enduml"] ∧
    (["@startuml", "title D", "", "start", ":Login;", "stop", "@enduml"] : List String) ≠
      ["start", ":Login;", "stop"] :=
  ⟨rfl, by decide⟩

/-- C5 amended: for any diagram name, scenario 1 renders as the PlantUML
preamble, then exactly the control-flow lines `start`, `:Login;`, `stop`,
then `@enduml`. -/
theorem C5_scenario1 :
    ∀ nm : String, generateActivityLines { dLogin with name := nm } =
      .ok ["@startuml", "title " ++ nm, "", "start", ":Login;", "stop", "@enduml"] := by
  intro nm
  rfl

/-- A successful object-map build returns the accumulator followed by all
processed objects, and preserves distinctness of instance names (the
duplicate-instance check rejects any repeat before insertion). -/
theorem buildObjectMap_ok (classes : List ObjectLayer.UMLClass) :
    ∀ (rest acc out : List ObjectLayer.DiagramObject),
      ObjectLayer.buildObjectMap classes acc rest = .ok out →
      out = acc ++ rest ∧
      ((acc.map (·.instance_name)).Nodup → (out.map (·.instance_name)).Nodup) := by
  intro rest
  induction rest with
  | nil =>
    intro acc out h
    unfold ObjectLayer.buildObjectMap at h
    cases h
    exact ⟨by simp, fun hn => hn⟩
  | cons obj rest ih =>
    intro acc out h
    unfold ObjectLayer.buildObjectMap at h
    cases hc : ObjectLayer.checkObject classes acc obj with
    | some f => rw [hc] at h; cases h
    | none =>
      rw [hc] at h
      obtain ⟨heq, hnd⟩ := ih (acc ++ [obj]) out h
      have hnot : obj.instance_name ∉ acc.map (·.instance_name) := by
        intro hmem
        unfold ObjectLayer.checkObject at hc
        rw [if_pos hmem] at hc
        cases hc
      refine ⟨by rw [heq]; simp, fun hacc => ?_⟩
      apply hnd
      rw [List.map_append]
      simp [List.nodup_append, hacc, hnot]

/-- C2 amended: only the class-diagram layer (class names) and the
object-diagram layer (instance names) detect duplicate identifiers;
use-case diagrams, CRC card sets and activity diagrams accept duplicates. -/
theorem C2_dup_checks :
    (∀ cd : ClassLayer.ClassDiagram, ¬ (cd.classes.map (·.name)).Nodup →
        cd.validate = .error .duplicateClassNames) ∧
    (∀ (od : ObjectLayer.ObjectDiagram) m, od.validate = .ok m →
        (od.objects.map (·.instance_name)).Nodup) ∧
    (UseCaseDiagram.build ucdDup = .ok ucdDup ∧ ¬ (ucdDup.use_cases.map (·.id)).Nodup) ∧
    (CRCModel.validate crcDup = .ok crcDup ∧ ¬ (crcDup.cards.map (·.class_name)).Nodup) ∧
    (ActivityDiagram.build dDupAct = .ok dDupAct ∧ ¬ (dDupAct.nodes.map (·.id)).Nodup) := by
  refine ⟨fun cd h => ?_, fun od m h => ?_, ⟨rfl, by decide⟩, ⟨rfl, by decide⟩, ⟨rfl, by decide⟩⟩
  · have hne : ((cd.classes.map (·.name)).dedup.length ≠ cd.classes.length) := by
      intro heq
      apply h
      have hlen : (cd.classes.map (·.name)).dedup.length = (cd.classes.map (·.name)).length := by
        rw [heq, List.length_map]
      have hd := List.Sublist.eq_of_length (List.dedup_sublist _) hlen
      rw [← hd]
      exact List.nodup_dedup _
    unfold ClassLayer.ClassDiagram.validate
    rw [if_pos hne]
  · unfold ObjectLayer.ObjectDiagram.validate at h
    cases hb : ObjectLayer.buildObjectMap od.class_diagram.classes [] od.objects with
    | error f => rw [hb] at h; cases h
    | ok objMap =>
      obtain ⟨heq, hnd⟩ := buildObjectMap_ok od.class_diagram.classes od.objects [] objMap hb
      have hobj : objMap = od.objects := by simpa using heq
      rw [← hobj]
      exact hnd (by simp)

/-- C2 counterexample: an activity diagram whose two nodes share id 1 is
constructed successfully. -/
theorem C2_counterexample :
    ActivityDiagram.build dDupAct = .ok dDupAct ∧ ¬ (dDupAct.nodes.map (·.id)).Nodup :=
  ⟨rfl, by decide⟩

theorem C2_witness :
    ClassLayer.ClassDiagram.validate cdDup = .error .duplicateClassNames ∧
    (odGood.objects.map (·.instance_name)).Nodup :=
  ⟨C2_dup_checks.1 cdDup (by decide), C2_dup_checks.2.1 odGood odGood rfl⟩

/-- C9: both heavyweight validators are pure functions that return the
input unchanged on success, so re-validating an accepted model re-accepts
it and leaves it untouched. -/
theorem C9_pure_idempotent :
    (∀ (cd : ClassLayer.ClassDiagram) m, cd.validate = .ok m → m = cd) ∧
    (∀ (cd : ClassLayer.ClassDiagram) m, cd.validate = .ok m →
        ClassLayer.ClassDiagram.validate m = .ok m) ∧
    (∀ (od : ObjectLayer.ObjectDiagram) m, od.validate = .ok m → m = od) ∧
    (∀ (od : ObjectLayer.ObjectDiagram) m, od.validate = .ok m →
        ObjectLayer.ObjectDiagram.validate m = .ok m) := by
  have hcd : ∀ (cd : ClassLayer.ClassDiagram) m, cd.validate = .ok m → m = cd := by
    intro cd m h
    unfold ClassLayer.ClassDiagram.validate at h
    split at h
    · cases h
    · split at h
      · cases h
      · split at h
        · cases h
        · cases h; rfl
  have hod : ∀ (od : ObjectLayer.ObjectDiagram) m, od.validate = .ok m → m = od := by
    intro od m h
    unfold ObjectLayer.ObjectDiagram.validate at h
    split at h
    · cases h
    · split at h
      · cases h
      · cases h; rfl
  refine ⟨hcd, fun cd m h => ?_, hod, fun od m h => ?_⟩
  · have hm := hcd cd m h
    subst hm
    exact h
  · have hm := hod od m h
    subst hm
    exact h

theorem C9_witness :
    cdChain = cdChain ∧ ClassLayer.ClassDiagram.validate cdChain = .ok cdChain ∧
    odGood = odGood ∧ ObjectLayer.ObjectDiagram.validate odGood = .ok odGood :=
  ⟨C9_pure_idempotent.1 cdChain cdChain rfl,
   C9_pure_idempotent.2.1 cdChain cdChain rfl,
   C9_pure_idempotent.2.2.1 odGood odGood rfl,
   C9_pure_idempotent.2.2.2 odGood odGood rfl⟩

theorem charListLe_total : ∀ as bs : List Char,
    ObjectLayer.charListLe as bs = true ∨ ObjectLayer.charListLe bs as = true := by
  intro as
  induction as with
  | nil => intro bs; left; rfl
  | cons a as ih =>
    intro bs
    cases bs with
    | nil => right; rfl
    | cons b bs =>
      unfold ObjectLayer.charListLe
      rcases Nat.lt_trichotomy a.toNat b.toNat with hlt | heq | hgt
      · left
        rw [if_pos hlt]
      · rw [heq]
        simp only [lt_self_iff_false, if_false]
        exact ih bs
      · right
        rw [if_pos hgt]

theorem charListLe_antisymm : ∀ as bs : List Char,
    ObjectLayer.charListLe as bs = true → ObjectLayer.charListLe bs as = true → as = bs := by
  intro as
  induction as with
  | nil =>
    intro bs h1 h2
    cases bs with
    | nil => rfl
    | cons b bs => cases h2
  | cons a as ih =>
    intro bs h1 h2
    cases bs with
    | nil => cases h1
    | cons b bs =>
      unfold ObjectLayer.charListLe at h1 h2
      rcases Nat.lt_trichotomy a.toNat b.toNat with hlt | heq | hgt
      · rw [if_neg (Nat.lt_asymm hlt), if_pos hlt] at h2
        cases h2
      · have hab : a = b := by
          apply Char.eq_of_val_eq
          exact UInt32.ext heq
        subst hab
        rw [if_neg (lt_irrefl _), if_neg (lt_irrefl _)] at h1 h2
        rw [ih bs h1 h2]
      · rw [if_neg (Nat.lt_asymm hgt), if_pos hgt] at h1
        cases h1

theorem sortedPair_comm (a b : String) :
    ObjectLayer.sortedPair a b = ObjectLayer.sortedPair b a := by
  unfold ObjectLayer.sortedPair
  cases hab : ObjectLayer.strLe a b <;> cases hba : ObjectLayer.strLe b a <;>
    simp only [hab, hba, Bool.false_eq_true, ite_true, ite_false, if_true, if_false]
  · rcases charListLe_total a.data b.data with h | h
    · exact absurd h (by simpa [ObjectLayer.strLe] using hab)
    · exact absurd h (by simpa [ObjectLayer.strLe] using hba)
  · have hq : a = b := String.ext (charListLe_antisymm _ _ hab hba)
    rw [hq]

theorem sortedPair_eq_iff (a b c d : String) :
    ObjectLayer.sortedPair a b = ObjectLayer.sortedPair c d ↔
      (a = c ∧ b = d) ∨ (a = d ∧ b = c) := by
  constructor
  · intro h
    unfold ObjectLayer.sortedPair at h
    split at h <;> split at h <;>
      simp only [Prod.mk.injEq] at h
    · exact Or.inl h
    · exact Or.inr ⟨h.1, h.2⟩
    · exact Or.inr ⟨h.2, h.1⟩
    · exact Or.inl ⟨h.2, h.1⟩
  · rintro (⟨h1, h2⟩ | ⟨h1, h2⟩)
    · rw [h1, h2]
    · rw [h1, h2]
      exact sortedPair_comm _ _

/-- C7: object-diagram link checking is symmetric in the two classes: a
link is accepted exactly when an association between the two objects'
classes exists in either order (compared through the canonicalized sorted
pair); otherwise the check produces `AssociationNotDeclared`; and a
successfully validated object diagram has every link so backed. -/
theorem C7_association_symmetry :
    (∀ a b : String, ObjectLayer.sortedPair a b = ObjectLayer.sortedPair b a) ∧
    (∀ (cd : ObjectLayer.ClassDiagram) (objMap : List ObjectLayer.DiagramObject)
        (link : ObjectLayer.Link) o1 o2,
      objMap.find? (fun o => o.instance_name == link.object1_instance_name) = some o1 →
      objMap.find? (fun o => o.instance_name == link.object2_instance_name) = some o2 →
      ((ObjectLayer.checkLink (ObjectLayer.validAssociations cd) objMap link = none ↔
        ∃ a ∈ cd.associations,
          (a.class1_name = o1.class_name ∧ a.class2_name = o2.class_name) ∨
          (a.class1_name = o2.class_name ∧ a.class2_name = o1.class_name)) ∧
       (ObjectLayer.checkLink (ObjectLayer.validAssociations cd) objMap link ≠ none →
        ObjectLayer.checkLink (ObjectLayer.validAssociations cd) objMap link =
          some (.associationNotDeclared o1.instance_name o1.class_name
                 o2.instance_name o2.class_name)))) ∧
    (∀ (od : ObjectLayer.ObjectDiagram) m, od.validate = .ok m →
      ∀ link ∈ od.links, ∃ objMap,
        ObjectLayer.buildObjectMap od.class_diagram.classes [] od.objects = .ok objMap ∧
        ObjectLayer.checkLink (ObjectLayer.validAssociations od.class_diagram) objMap link = none) := by
  refine ⟨sortedPair_comm, fun cd objMap link o1 o2 h1 h2 => ?_, fun od m h link hlink => ?_⟩
  · have hmem : ObjectLayer.sortedPair o1.class_name o2.class_name ∈
        ObjectLayer.validAssociations cd ↔
        ∃ a ∈ cd.associations,
          (a.class1_name = o1.class_name ∧ a.class2_name = o2.class_name) ∨
          (a.class1_name = o2.class_name ∧ a.class2_name = o1.class_name) := by
      unfold ObjectLayer.validAssociations
      rw [List.mem_map]
      constructor
      · rintro ⟨a, ha, heq⟩
        exact ⟨a, ha, (sortedPair_eq_iff _ _ _ _).mp heq⟩
      · rintro ⟨a, ha, hor⟩
        exact ⟨a, ha, (sortedPair_eq_iff _ _ _ _).mpr hor⟩
    have hred : ObjectLayer.checkLink (ObjectLayer.validAssociations cd) objMap link =
        (if ObjectLayer.sortedPair o1.class_name o2.class_name ∈
              ObjectLayer.validAssociations cd then none
         else some (ObjectLayer.ODFinding.associationNotDeclared o1.instance_name
                 o1.class_name o2.instance_name o2.class_name)) := by
      unfold ObjectLayer.checkLink
      rw [h1, h2]
    rw [hred]
    by_cases hm : ObjectLayer.sortedPair o1.class_name o2.class_name ∈
        ObjectLayer.validAssociations cd
    · rw [if_pos hm]
      exact ⟨Iff.intro (fun _ => hmem.mp hm) (fun _ => rfl), fun hne => absurd rfl hne⟩
    · rw [if_neg hm]
      exact ⟨Iff.intro (fun habs => Option.noConfusion habs)
               (fun hex => absurd (hmem.mpr hex) hm), fun _ => rfl⟩
  · unfold ObjectLayer.ObjectDiagram.validate at h
    cases hb : ObjectLayer.buildObjectMap od.class_diagram.classes [] od.objects with
    | error f => rw [hb] at h; cases h
    | ok objMap =>
      rw [hb] at h
      cases hf : od.links.findSome?
          (ObjectLayer.checkLink (ObjectLayer.validAssociations od.class_diagram) objMap) with
      | some f =>
        simp only [hf] at h
        exact Except.noConfusion h
      | none =>
        refine ⟨objMap, rfl, ?_⟩
        exact List.findSome?_eq_none_iff.mp hf link hlink

theorem C7_witness :
    (ObjectLayer.sortedPair "A" "B" = ObjectLayer.sortedPair "B" "A") ∧
    (ObjectLayer.checkLink (ObjectLayer.validAssociations odGood.class_diagram)
       odGood.objects ⟨"x", "y", none⟩ = none ↔
     ∃ a ∈ odGood.class_diagram.associations,
       (a.class1_name = "A" ∧ a.class2_name = "B") ∨
       (a.class1_name = "B" ∧ a.class2_name = "A")) := by
  refine ⟨C7_association_symmetry.1 "A" "B", ?_⟩
  have h := C7_association_symmetry.2.1 odGood.class_diagram odGood.objects
    ⟨"x", "y", none⟩ ⟨"x", "A", []⟩ ⟨"y", "B", []⟩ rfl rfl
  exact h.1

theorem firstSome_none_iff {α : Type} (a b : Option α) :
    firstSome a b = none ↔ a = none ∧ b = none := by
  cases a <;> simp [firstSome]

theorem firstSome_some {α : Type} (a b : Option α) (f : α)
    (h : firstSome a b = some f) : a = some f ∨ (a = none ∧ b = some f) := by
  cases a with
  | none => exact Or.inr ⟨rfl, h⟩
  | some g => exact Or.inl (by simpa [firstSome] using h)

theorem crcSuperCheck_none_iff (valid : List String) (card : CRCCard) :
    crcSuperCheck valid card = none ↔
      (∀ s, card.superclass = some s → s ≠ "" → s ∈ valid) := by
  cases hs : card.superclass with
  | none => simp [crcSuperCheck, hs]
  | some s =>
    simp only [crcSuperCheck, hs]
    by_cases hc : s ≠ "" ∧ s ∉ valid
    · rw [if_pos hc]
      constructor
      · intro habs
        cases habs
      · intro hall
        exact absurd (hall s rfl hc.1) hc.2
    · rw [if_neg hc]
      constructor
      · intro _ s' hss' hne
        injection hss' with hh
        subst hh
        rcases not_and_or.mp hc with h1 | h2
        · exact absurd hne (by simpa using h1)
        · simpa using h2
      · intro _
        rfl

theorem crcSubCheck_none_iff (valid : List String) (card : CRCCard) :
    crcSubCheck valid card = none ↔ ∀ sub ∈ card.subclasses, sub ∈ valid := by
  unfold crcSubCheck
  rw [List.findSome?_eq_none_iff]
  constructor
  · intro h sub hmem
    have hx := h sub hmem
    by_contra hnot
    rw [if_pos hnot] at hx
    cases hx
  · intro h sub hmem
    rw [if_neg (by simpa using h sub hmem)]

theorem crcCollabCheck_none_iff (valid : List String) (card : CRCCard) :
    crcCollabCheck valid card = none ↔
      ∀ resp ∈ card.responsibilities, ∀ collab ∈ resp.collaborators, collab ∈ valid := by
  unfold crcCollabCheck
  rw [List.findSome?_eq_none_iff]
  constructor
  · intro h resp hresp collab hcol
    have hx := h resp hresp
    rw [List.findSome?_eq_none_iff] at hx
    have hy := hx collab hcol
    by_contra hnot
    rw [if_pos hnot] at hy
    cases hy
  · intro h resp hresp
    rw [List.findSome?_eq_none_iff]
    intro collab hcol
    rw [if_neg (by simpa using h resp hresp collab hcol)]

theorem crcCheckCard_none_iff (valid : List String) (card : CRCCard) :
    crcCheckCard valid card = none ↔
      ((∀ s, card.superclass = some s → s ≠ "" → s ∈ valid) ∧
       (∀ sub ∈ card.subclasses, sub ∈ valid) ∧
       (∀ resp ∈ card.responsibilities, ∀ collab ∈ resp.collaborators, collab ∈ valid)) := by
  unfold crcCheckCard
  rw [firstSome_none_iff, firstSome_none_iff, crcSuperCheck_none_iff,
    crcSubCheck_none_iff, crcCollabCheck_none_iff]

/-- Any finding returned by the per-card check names an actually
unresolved reference on that card. -/
theorem crcCheckCard_some (valid : List String) (card : CRCCard) (f : CRCFinding)
    (h : crcCheckCard valid card = some f) :
    (∃ s, card.superclass = some s ∧ s ≠ "" ∧ s ∉ valid ∧
       f = .superclassMissing card.class_name s) ∨
    (∃ sub ∈ card.subclasses, sub ∉ valid ∧ f = .subclassMissing card.class_name sub) ∨
    (∃ resp ∈ card.responsibilities, ∃ collab ∈ resp.collaborators, collab ∉ valid ∧
       f = .collaboratorMissing card.class_name resp.description collab) := by
  unfold crcCheckCard at h
  rcases firstSome_some _ _ _ h with hsup | ⟨_, hrest⟩
  · left
    cases hs : card.superclass with
    | none => simp [crcSuperCheck, hs] at hsup
    | some s =>
      simp only [crcSuperCheck, hs] at hsup
      by_cases hc : s ≠ "" ∧ s ∉ valid
      · rw [if_pos hc] at hsup
        injection hsup with hf
        exact ⟨s, rfl, hc.1, hc.2, hf.symm⟩
      · rw [if_neg hc] at hsup
        cases hsup
  · rcases firstSome_some _ _ _ hrest with hsub | ⟨_, hcol⟩
    · right; left
      unfold crcSubCheck at hsub
      obtain ⟨sub, hmem, hif⟩ := List.exists_of_findSome?_eq_some hsub
      by_cases hnot : sub ∉ valid
      · rw [if_pos hnot] at hif
        injection hif with hf
        exact ⟨sub, hmem, hnot, hf.symm⟩
      · rw [if_neg hnot] at hif
        cases hif
    · right; right
      unfold crcCollabCheck at hcol
      obtain ⟨resp, hresp, hinner⟩ := List.exists_of_findSome?_eq_some hcol
      obtain ⟨collab, hcmem, hif⟩ := List.exists_of_findSome?_eq_some hinner
      by_cases hnot : collab ∉ valid
      · rw [if_pos hnot] at hif
        injection hif with hf
        exact ⟨resp, hresp, collab, hcmem, hnot, hf.symm⟩
      · rw [if_neg hnot] at hif
        cases hif

/-- C8 amended: CRC construction succeeds exactly when every subclass
entry and collaborator name, and every present non-empty superclass,
resolves to a card of the set; every finding produced names a genuine
offender (an empty-string superclass is skipped by the truthiness guard
and never fails construction). -/
theorem C8_crc_resolution :
    (∀ m : CRCModel, m.validate = .ok m ↔ CRCResolved m) ∧
    (∀ (m : CRCModel) f, m.validate = .error f → CRCOffends m f) := by
  constructor
  · intro m
    have hval : m.validate = .ok m ↔
        m.cards.findSome? (crcCheckCard (m.cards.map (·.class_name))) = none := by
      cases hf : m.cards.findSome? (crcCheckCard (m.cards.map (·.class_name))) with
      | some f => simp [CRCModel.validate, hf]
      | none => simp [CRCModel.validate, hf]
    rw [hval, List.findSome?_eq_none_iff]
    unfold CRCResolved
    exact ⟨fun h card hm => (crcCheckCard_none_iff _ _).mp (h card hm),
           fun h card hm => (crcCheckCard_none_iff _ _).mpr (h card hm)⟩
  · intro m f h
    have hsome : m.cards.findSome? (crcCheckCard (m.cards.map (·.class_name))) = some f := by
      cases hf : m.cards.findSome? (crcCheckCard (m.cards.map (·.class_name))) with
      | some g =>
        simp only [CRCModel.validate, hf] at h
        injection h with hg
        rw [hg]
      | none => simp [CRCModel.validate, hf] at h
    obtain ⟨card, hmem, hcs⟩ := List.exists_of_findSome?_eq_some hsome
    rcases crcCheckCard_some _ _ _ hcs with
      ⟨s, hs, hne, hnot, hfeq⟩ | ⟨sub, hsubm, hnot, hfeq⟩ |
        ⟨resp, hrespm, collab, hcolm, hnot, hfeq⟩
    · subst hfeq
      exact ⟨card, hmem, rfl, hs, hne, hnot⟩
    · subst hfeq
      exact ⟨card, hmem, rfl, hsubm, hnot⟩
    · subst hfeq
      exact ⟨card, hmem, rfl, resp, hrespm, rfl, hcolm, hnot⟩

/-- C8 counterexample: a card whose superclass is present but equal to the
empty string resolves to no card, yet construction succeeds (Python
truthiness skips the check). -/
theorem C8_counterexample :
    CRCModel.validate crcEmptySuper = .ok crcEmptySuper ∧
    crcEmptySuper.cards.map (fun c => c.superclass) = [some ""] ∧
    "" ∉ crcEmptySuper.cards.map (·.class_name) :=
  ⟨rfl, by decide, by decide⟩

theorem C8_witness :
    CRCResolved crcGood ∧ CRCOffends crcBad (.superclassMissing "A" "Z") :=
  ⟨(C8_crc_resolution.1 crcGood).mp rfl, C8_crc_resolution.2 crcBad _ rfl⟩

/-- C1 amended: in the main walk an unvisited merge or join target is
emitted as its convergence marker comment and the walk CONTINUES forward
from it (its node id is handed back to `_process_flows_from_node`); only a
fork branch whose immediate target is a join skips that target without
emission or continuation.  Consequently, in the fork scenario the nodes
downstream of the join are emitted inside the first branch that reaches
the join (`dFork` below: `# Join point` and `:C;` appear inside the first
fork branch), while a fork whose branches target the join directly renders
an empty fork block and nothing downstream (`dForkDirect`). -/
theorem C1_merge_join_continuation :
    (∀ (recur : Int → WalkState → Except WalkErr WalkState)
       (nodes : List ActivityNode) (flows : List ActivityFlow)
       (flow : ActivityFlow) (st : WalkState) (target : ActivityNode),
      nodeLookup nodes flow.target_id = some target →
      target.node_type = .merge →
      target.id ∉ st.processed →
      condTruthy flow.condition = false →
      handleOneFlow recur nodes flows flow st =
        recur target.id
          { lines := st.lines ++ ["# Merge point"], processed := target.id :: st.processed }) ∧
    (∀ (recur : Int → WalkState → Except WalkErr WalkState)
       (nodes : List ActivityNode) (flows : List ActivityFlow)
       (flow : ActivityFlow) (st : WalkState) (target : ActivityNode),
      nodeLookup nodes flow.target_id = some target →
      target.node_type = .join →
      target.id ∉ st.processed →
      condTruthy flow.condition = false →
      handleOneFlow recur nodes flows flow st =
        recur target.id
          { lines := st.lines ++ ["# Join point"], processed := target.id :: st.processed }) ∧
    (∀ (recur : Int → WalkState → Except WalkErr WalkState)
       (nodes : List ActivityNode) (flow : ActivityFlow) (st : WalkState)
       (target : ActivityNode),
      nodeLookup nodes flow.target_id = some target →
      target.node_type = .join →
      target.id ∉ st.processed →
      forkBranchStep recur nodes flow st =
        .ok { st with processed := target.id :: st.processed }) ∧
    generateActivityLines dFork =
      .ok ["@startuml", "title D", "", "start", "fork", ":A;", "# Join point", ":C;",
           "fork again", ":B;", "end fork", "@enduml"] ∧
    generateActivityLines dForkDirect =
      .ok ["@startuml", "title D", "", "start", "fork", "fork again", "end fork", "@enduml"] := by
  refine ⟨fun recur nodes flows flow st target hlk htype hmem hcond => ?_,
    fun recur nodes flows flow st target hlk htype hmem hcond => ?_,
    fun recur nodes flow st target hlk htype hmem => ?_, rfl, rfl⟩
  · simp only [handleOneFlow, hlk, htype, hcond, Bool.false_eq_true, if_false, if_neg hmem,
      ite_false, pure_bind]
  · simp only [handleOneFlow, hlk, htype, hcond, Bool.false_eq_true, if_false, if_neg hmem,
      ite_false, pure_bind]
  · simp only [forkBranchStep, hlk, htype, if_neg hmem]

/-- C1 counterexample: from `start → merge(2) → action(3,"A") → end(4)` the
walk emits the merge marker and then KEEPS WALKING: the downstream `:A;`
and `stop` lines appear, although the claim asserts no outgoing flow of a
merge node is followed. -/
theorem C1_counterexample :
    generateActivityLines dMerge =
      .ok ["@startuml", "title D", "", "start", "# Merge point", ":A;", "stop", "@enduml"] ∧
    ":A;" ∈ ["@startuml", "title D", "", "start", "# Merge point", ":A;", "stop", "@enduml"] :=
  ⟨rfl, by decide⟩

theorem C1_witness :
    handleOneFlow (processFlowsFromNode dMerge.nodes dMerge.flows 3) dMerge.nodes dMerge.flows
        ⟨1, 2, none⟩ { lines := ["start"], processed := [1] } =
      processFlowsFromNode dMerge.nodes dMerge.flows 3 2
        { lines := ["start", "# Merge point"], processed := [2, 1] } ∧
    forkBranchStep (processFlowsFromNode dForkDirect.nodes dForkDirect.flows 3)
        dForkDirect.nodes ⟨2, 3, none⟩ { lines := ["start", "fork"], processed := [2, 1] } =
      .ok { lines := ["start", "fork"], processed := [3, 2, 1] } :=
  ⟨C1_merge_join_continuation.1 _ dMerge.nodes dMerge.flows ⟨1, 2, none⟩
      { lines := ["start"], processed := [1] } ⟨2, "M", .merge, none⟩ rfl rfl (by decide) rfl,
   C1_merge_join_continuation.2.2.1 _ dForkDirect.nodes ⟨2, 3, none⟩
      { lines := ["start", "fork"], processed := [2, 1] } ⟨3, "J", .join, none⟩ rfl rfl (by decide)⟩

/-- A successful `node_map` lookup returns a node whose id is the key, and
that id is one of the diagram's node ids. -/
theorem nodeLookup_some (nodes : List ActivityNode) (k : Int) (n : ActivityNode)
    (h : nodeLookup nodes k = some n) : n.id = k ∧ n.id ∈ nodeIds nodes := by
  unfold nodeLookup at h
  have hid : n.id = k := by
    have hp := List.find?_some h
    simpa using hp
  refine ⟨hid, ?_⟩
  have hmem : n ∈ nodes.reverse := List.mem_of_find?_eq_some h
  rw [List.mem_reverse] at hmem
  unfold nodeIds
  rw [List.mem_dedup]
  exact List.mem_map_of_mem _ hmem

/-- Growing the visited set never increases the count of unvisited ids. -/
theorem count_anti {α : Type} [DecidableEq α] (l P Q : List α) (hPQ : P ⊆ Q) :
    (l.filter (fun i => decide (i ∉ Q))).length ≤
      (l.filter (fun i => decide (i ∉ P))).length := by
  induction l with
  | nil => simp
  | cons a l ih =>
    rw [List.filter_cons, List.filter_cons]
    by_cases hQ : a ∈ Q
    · rw [if_neg (by simp [hQ])]
      by_cases hP : a ∈ P
      · rw [if_neg (by simp [hP])]
        exact ih
      · rw [if_pos (by simp [hP])]
        exact Nat.le_succ_of_le ih
    · have hP : a ∉ P := fun hp => hQ (hPQ hp)
      rw [if_pos (by simp [hQ]), if_pos (by simp [hP])]
      simpa using ih

/-- Inserting a genuinely new node id strictly shrinks the count of
unvisited ids: the walk's termination measure. -/
theorem count_cons_lt {α : Type} [DecidableEq α] (l P : List α) (t : α)
    (ht : t ∈ l) (hP : t ∉ P) :
    (l.filter (fun i => decide (i ∉ t :: P))).length <
      (l.filter (fun i => decide (i ∉ P))).length := by
  induction l with
  | nil => cases ht
  | cons a l ih =>
    rw [List.filter_cons, List.filter_cons]
    by_cases hat : a = t
    · subst hat
      rw [if_neg (by simp), if_pos (by simp [hP])]
      have hle := count_anti l P (a :: P) (fun x hx => List.mem_cons_of_mem _ hx)
      simp only [List.length_cons]
      exact Nat.lt_succ_of_le hle
    · have htl : t ∈ l := by
        rcases List.mem_cons.mp ht with h | h
        · exact absurd h.symm hat
        · exact h
      by_cases hPa : a ∈ P
      · rw [if_neg (by simp [List.mem_cons, hPa]), if_neg (by simp [hPa])]
        exact ih htl
      · rw [if_pos (by simp [List.mem_cons, hat, hPa]), if_pos (by simp [hPa])]
        simp only [List.length_cons]
        exact Nat.succ_lt_succ (ih htl)

/-- The decision-branch step only grows the visited set. -/
theorem decisionBranchStep_mono (recur : Int → WalkState → Except WalkErr WalkState)
    (hrec : RecurMono recur) (nodes : List ActivityNode) (flow : ActivityFlow)
    (st st' : WalkState) (h : decisionBranchStep recur nodes flow st = .ok st') :
    st.processed ⊆ st'.processed := by
  unfold decisionBranchStep at h
  cases hlk : nodeLookup nodes flow.target_id with
  | none => simp [hlk] at h
  | some target =>
    simp only [hlk] at h
    by_cases hmem : target.id ∈ st.processed
    · rw [if_pos hmem] at h
      injection h with h'
      rw [← h']
      exact fun x hx => hx
    · rw [if_neg hmem] at h
      cases htype : target.node_type <;> simp only [htype] at h <;>
        first
        | (injection h with h'
           rw [← h']
           exact fun x hx => List.mem_cons_of_mem _ hx)
        | (exact fun x hx => hrec _ _ _ h (List.mem_cons_of_mem _ hx))

/-- Analyzing a successful `Except` bind. -/
theorem exceptBind_ok {α β : Type} {x : Except WalkErr α} {f : α → Except WalkErr β} {b : β}
    (h : x >>= f = .ok b) : ∃ a, x = .ok a ∧ f a = .ok b := by
  cases x with
  | error e => simp [Bind.bind, Except.bind] at h
  | ok a => exact ⟨a, rfl, by simpa [Bind.bind, Except.bind] using h⟩

/-- The fork-branch step only grows the visited set. -/
theorem forkBranchStep_mono (recur : Int → WalkState → Except WalkErr WalkState)
    (hrec : RecurMono recur) (nodes : List ActivityNode) (flow : ActivityFlow)
    (st st' : WalkState) (h : forkBranchStep recur nodes flow st = .ok st') :
    st.processed ⊆ st'.processed := by
  unfold forkBranchStep at h
  cases hlk : nodeLookup nodes flow.target_id with
  | none => simp [hlk] at h
  | some target =>
    simp only [hlk] at h
    by_cases hmem : target.id ∈ st.processed
    · rw [if_pos hmem] at h
      injection h with h'
      rw [← h']
      exact fun x hx => hx
    · rw [if_neg hmem] at h
      cases htype : target.node_type <;> simp only [htype] at h <;>
        first
        | (injection h with h'
           rw [← h']
           exact fun x hx => List.mem_cons_of_mem _ hx)
        | (exact fun x hx => hrec _ _ _ h (List.mem_cons_of_mem _ hx))

/-- The decision-branch fold only grows the visited set. -/
theorem decisionBranchesGo_mono (recur : Int → WalkState → Except WalkErr WalkState)
    (hrec : RecurMono recur) (nodes : List ActivityNode) :
    ∀ (pending : List ActivityFlow) (isFirst : Bool) (st st' : WalkState),
      decisionBranchesGo recur nodes pending isFirst st = .ok st' →
      st.processed ⊆ st'.processed := by
  intro pending
  induction pending with
  | nil =>
    intro isFirst st st' h
    unfold decisionBranchesGo at h
    injection h with h'
    rw [← h']
    exact fun x hx => hx
  | cons flow rest ih =>
    intro isFirst st st' h
    unfold decisionBranchesGo at h
    obtain ⟨st1, hstep, hrest⟩ := exceptBind_ok h
    have h1 : st.processed ⊆ st1.processed := by
      have hm := decisionBranchStep_mono recur hrec nodes flow _ st1 hstep
      cases isFirst
      · exact hm
      · exact hm
    exact fun x hx => ih false st1 st' hrest (h1 hx)

/-- The fork-branch fold only grows the visited set. -/
theorem forkBranchesGo_mono (recur : Int → WalkState → Except WalkErr WalkState)
    (hrec : RecurMono recur) (nodes : List ActivityNode) :
    ∀ (pending : List ActivityFlow) (isFirst : Bool) (st st' : WalkState),
      forkBranchesGo recur nodes pending isFirst st = .ok st' →
      st.processed ⊆ st'.processed := by
  intro pending
  induction pending with
  | nil =>
    intro isFirst st st' h
    unfold forkBranchesGo at h
    injection h with h'
    rw [← h']
    exact fun x hx => hx
  | cons flow rest ih =>
    intro isFirst st st' h
    unfold forkBranchesGo at h
    obtain ⟨st1, hstep, hrest⟩ := exceptBind_ok h
    have h1 : st.processed ⊆ st1.processed := by
      have hm := forkBranchStep_mono recur hrec nodes flow _ st1 hstep
      cases isFirst
      · exact hm
      · exact hm
    exact fun x hx => ih false st1 st' hrest (h1 hx)

/-- The per-flow handler of the main walk only grows the visited set. -/
theorem handleOneFlow_mono (recur : Int → WalkState → Except WalkErr WalkState)
    (hrec : RecurMono recur) (nodes : List ActivityNode) (flows : List ActivityFlow)
    (flow : ActivityFlow) (st st' : WalkState)
    (h : handleOneFlow recur nodes flows flow st = .ok st') :
    st.processed ⊆ st'.processed := by
  unfold handleOneFlow at h
  cases hlk : nodeLookup nodes flow.target_id with
  | none => simp [hlk] at h
  | some target =>
    simp only [hlk] at h
    by_cases hmem : target.id ∈ st.processed
    · rw [if_pos hmem] at h
      injection h with h'
      rw [← h']
      exact fun x hx => hx
    · rw [if_neg hmem] at h
      by_cases hcond : condTruthy flow.condition = true <;>
        [rw [if_pos hcond] at h; rw [if_neg hcond] at h] <;>
        cases htype : target.node_type <;> simp only [htype, pure_bind, bind_pure] at h <;>
        first
        | (injection h with h'
           rw [← h']
           exact fun x hx => List.mem_cons_of_mem _ hx)
        | (exact fun x hx => hrec _ _ _ h (List.mem_cons_of_mem _ hx))
        | (obtain ⟨stB, hdb, hk⟩ := exceptBind_ok h
           injection hk with hk'
           rw [← hk']
           have hsub := decisionBranchesGo_mono recur hrec nodes _ true _ stB hdb
           exact fun x hx => hsub (List.mem_cons_of_mem _ hx))
        | (obtain ⟨stB, hdb, hk⟩ := exceptBind_ok h
           injection hk with hk'
           rw [← hk']
           have hsub := forkBranchesGo_mono recur hrec nodes _ true _ stB hdb
           exact fun x hx => hsub (List.mem_cons_of_mem _ hx))

/-- The flow fold of the main walk only grows the visited set. -/
theorem flowsGo_mono (recur : Int → WalkState → Except WalkErr WalkState)
    (hrec : RecurMono recur) (nodes : List ActivityNode) (flows : List ActivityFlow) :
    ∀ (pending : List ActivityFlow) (st st' : WalkState),
      flowsGo recur nodes flows pending st = .ok st' → st.processed ⊆ st'.processed := by
  intro pending
  induction pending with
  | nil =>
    intro st st' h
    unfold flowsGo at h
    injection h with h'
    rw [← h']
    exact fun x hx => hx
  | cons flow rest ih =>
    intro st st' h
    unfold flowsGo at h
    obtain ⟨st1, hstep, hrest⟩ := exceptBind_ok h
    exact fun x hx =>
      ih st1 st' hrest (handleOneFlow_mono recur hrec nodes flows flow st st1 hstep hx)

/-- The main walk only grows the visited set, at every fuel level. -/
theorem processFlowsFromNode_mono (nodes : List ActivityNode) (flows : List ActivityFlow) :
    ∀ fuel : Nat, RecurMono (processFlowsFromNode nodes flows fuel) := by
  intro fuel
  induction fuel with
  | zero =>
    intro id st st' h
    cases h
  | succ fuel ih =>
    intro id st st' h
    unfold processFlowsFromNode at h
    exact flowsGo_mono (processFlowsFromNode nodes flows fuel) ih nodes flows
      (outgoingFlows flows id) st st' h

/-- Analyzing a failing `Except` bind. -/
theorem exceptBind_error {α β : Type} {x : Except WalkErr α} {f : α → Except WalkErr β}
    {e : WalkErr} (h : x >>= f = .error e) :
    x = .error e ∨ ∃ a, x = .ok a ∧ f a = .error e := by
  cases x with
  | error e' =>
    left
    have he : e' = e := by simpa [Bind.bind, Except.bind] using h
    rw [he]
  | ok a =>
    right
    exact ⟨a, rfl, by simpa [Bind.bind, Except.bind] using h⟩

/-- Visiting a fresh node strictly decreases the termination measure. -/
theorem unprocessedCount_lt (nodes : List ActivityNode) (st st' : WalkState) (t : Int)
    (hp : st'.processed = t :: st.processed) (ht : t ∈ nodeIds nodes)
    (hmem : t ∉ st.processed) :
    unprocessedCount nodes st' < unprocessedCount nodes st := by
  unfold unprocessedCount
  rw [hp]
  exact count_cons_lt _ _ _ ht hmem

/-- The termination measure never grows along the walk. -/
theorem unprocessedCount_le (nodes : List ActivityNode) (st st' : WalkState)
    (h : st.processed ⊆ st'.processed) :
    unprocessedCount nodes st' ≤ unprocessedCount nodes st := by
  unfold unprocessedCount
  exact count_anti _ _ _ h

/-- The decision-branch step cannot exhaust the fuel while the measure is
within bounds. -/
theorem decisionBranchStep_suff (recur : Int → WalkState → Except WalkErr WalkState)
    (nodes : List ActivityNode) (fuel : Nat) (hrecS : RecurSuff nodes recur fuel)
    (flow : ActivityFlow) (st : WalkState)
    (hcount : unprocessedCount nodes st ≤ fuel) :
    decisionBranchStep recur nodes flow st ≠ .error .outOfFuel := by
  intro habs
  unfold decisionBranchStep at habs
  cases hlk : nodeLookup nodes flow.target_id with
  | none =>
    simp only [hlk] at habs
    injection habs with he
    cases he
  | some target =>
    simp only [hlk] at habs
    obtain ⟨hid, hids⟩ := nodeLookup_some nodes flow.target_id target hlk
    by_cases hmem : target.id ∈ st.processed
    · rw [if_pos hmem] at habs
      cases habs
    · rw [if_neg hmem] at habs
      have hlt : ∀ st' : WalkState, st'.processed = target.id :: st.processed →
          unprocessedCount nodes st' < fuel :=
        fun st' hp => Nat.lt_of_lt_of_le (unprocessedCount_lt nodes st st' _ hp hids hmem) hcount
      cases htype : target.node_type <;> simp only [htype] at habs <;>
        first
        | (cases habs)
        | (exact hrecS _ _ (hlt _ rfl) habs)

/-- The fork-branch step cannot exhaust the fuel while the measure is
within bounds. -/
theorem forkBranchStep_suff (recur : Int → WalkState → Except WalkErr WalkState)
    (nodes : List ActivityNode) (fuel : Nat) (hrecS : RecurSuff nodes recur fuel)
    (flow : ActivityFlow) (st : WalkState)
    (hcount : unprocessedCount nodes st ≤ fuel) :
    forkBranchStep recur nodes flow st ≠ .error .outOfFuel := by
  intro habs
  unfold forkBranchStep at habs
  cases hlk : nodeLookup nodes flow.target_id with
  | none =>
    simp only [hlk] at habs
    injection habs with he
    cases he
  | some target =>
    simp only [hlk] at habs
    obtain ⟨hid, hids⟩ := nodeLookup_some nodes flow.target_id target hlk
    by_cases hmem : target.id ∈ st.processed
    · rw [if_pos hmem] at habs
      cases habs
    · rw [if_neg hmem] at habs
      have hlt : ∀ st' : WalkState, st'.processed = target.id :: st.processed →
          unprocessedCount nodes st' < fuel :=
        fun st' hp => Nat.lt_of_lt_of_le (unprocessedCount_lt nodes st st' _ hp hids hmem) hcount
      cases htype : target.node_type <;> simp only [htype] at habs <;>
        first
        | (cases habs)
        | (exact hrecS _ _ (hlt _ rfl) habs)

/-- The decision-branch fold cannot exhaust the fuel while the measure is
within bounds. -/
theorem decisionBranchesGo_suff (recur : Int → WalkState → Except WalkErr WalkState)
    (nodes : List ActivityNode) (fuel : Nat)
    (hrecS : RecurSuff nodes recur fuel) (hrecM : RecurMono recur) :
    ∀ (pending : List ActivityFlow) (isFirst : Bool) (st : WalkState),
      unprocessedCount nodes st ≤ fuel →
      decisionBranchesGo recur nodes pending isFirst st ≠ .error .outOfFuel := by
  intro pending
  induction pending with
  | nil =>
    intro isFirst st hc habs
    unfold decisionBranchesGo at habs
    cases habs
  | cons flow rest ih =>
    intro isFirst st hc habs
    unfold decisionBranchesGo at habs
    rcases exceptBind_error habs with hstep | ⟨st1, hstep, hrest⟩
    · cases isFirst
      · refine decisionBranchStep_suff recur nodes fuel hrecS flow _ ?_ hstep
        exact hc
      · refine decisionBranchStep_suff recur nodes fuel hrecS flow _ ?_ hstep
        exact hc
    · have hsub := decisionBranchStep_mono recur hrecM nodes flow _ st1 hstep
      have hss : st.processed ⊆ st1.processed := by
        cases isFirst
        · exact hsub
        · exact hsub
      exact ih false st1 (le_trans (unprocessedCount_le nodes st st1 hss) hc) hrest

/-- The fork-branch fold cannot exhaust the fuel while the measure is
within bounds. -/
theorem forkBranchesGo_suff (recur : Int → WalkState → Except WalkErr WalkState)
    (nodes : List ActivityNode) (fuel : Nat)
    (hrecS : RecurSuff nodes recur fuel) (hrecM : RecurMono recur) :
    ∀ (pending : List ActivityFlow) (isFirst : Bool) (st : WalkState),
      unprocessedCount nodes st ≤ fuel →
      forkBranchesGo recur nodes pending isFirst st ≠ .error .outOfFuel := by
  intro pending
  induction pending with
  | nil =>
    intro isFirst st hc habs
    unfold forkBranchesGo at habs
    cases habs
  | cons flow rest ih =>
    intro isFirst st hc habs
    unfold forkBranchesGo at habs
    rcases exceptBind_error habs with hstep | ⟨st1, hstep, hrest⟩
    · cases isFirst
      · refine forkBranchStep_suff recur nodes fuel hrecS flow _ ?_ hstep
        exact hc
      · refine forkBranchStep_suff recur nodes fuel hrecS flow _ ?_ hstep
        exact hc
    · have hsub := forkBranchStep_mono recur hrecM nodes flow _ st1 hstep
      have hss : st.processed ⊆ st1.processed := by
        cases isFirst
        · exact hsub
        · exact hsub
      exact ih false st1 (le_trans (unprocessedCount_le nodes st st1 hss) hc) hrest

/-- The per-flow handler cannot exhaust the fuel while the measure is
within bounds. -/
theorem handleOneFlow_suff (recur : Int → WalkState → Except WalkErr WalkState)
    (nodes : List ActivityNode) (flows : List ActivityFlow) (fuel : Nat)
    (hrecS : RecurSuff nodes recur fuel) (hrecM : RecurMono recur)
    (flow : ActivityFlow) (st : WalkState)
    (hcount : unprocessedCount nodes st ≤ fuel) :
    handleOneFlow recur nodes flows flow st ≠ .error .outOfFuel := by
  intro habs
  unfold handleOneFlow at habs
  cases hlk : nodeLookup nodes flow.target_id with
  | none =>
    simp only [hlk] at habs
    injection habs with he
    cases he
  | some target =>
    simp only [hlk] at habs
    obtain ⟨hid, hids⟩ := nodeLookup_some nodes flow.target_id target hlk
    by_cases hmem : target.id ∈ st.processed
    · rw [if_pos hmem] at habs
      cases habs
    · rw [if_neg hmem] at habs
      have hlt : ∀ st' : WalkState, st'.processed = target.id :: st.processed →
          unprocessedCount nodes st' < fuel :=
        fun st' hp => Nat.lt_of_lt_of_le (unprocessedCount_lt nodes st st' _ hp hids hmem) hcount
      by_cases hcond : condTruthy flow.condition = true <;>
        [rw [if_pos hcond] at habs; rw [if_neg hcond] at habs] <;>
        cases htype : target.node_type <;> simp only [htype, pure_bind, bind_pure] at habs <;>
        first
        | (cases habs)
        | (exact hrecS _ _ (hlt _ rfl) habs)
        | (rcases exceptBind_error habs with hdb | ⟨stB, hdb, hk⟩
           · exact decisionBranchesGo_suff recur nodes fuel hrecS hrecM _ true _
               (le_of_lt (hlt _ rfl)) hdb
           · cases hk)
        | (rcases exceptBind_error habs with hdb | ⟨stB, hdb, hk⟩
           · exact forkBranchesGo_suff recur nodes fuel hrecS hrecM _ true _
               (le_of_lt (hlt _ rfl)) hdb
           · cases hk)

/-- The flow fold cannot exhaust the fuel while the measure is within
bounds. -/
theorem flowsGo_suff (recur : Int → WalkState → Except WalkErr WalkState)
    (nodes : List ActivityNode) (flows : List ActivityFlow) (fuel : Nat)
    (hrecS : RecurSuff nodes recur fuel) (hrecM : RecurMono recur) :
    ∀ (pending : List ActivityFlow) (st : WalkState),
      unprocessedCount nodes st ≤ fuel →
      flowsGo recur nodes flows pending st ≠ .error .outOfFuel := by
  intro pending
  induction pending with
  | nil =>
    intro st hc habs
    unfold flowsGo at habs
    cases habs
  | cons flow rest ih =>
    intro st hc habs
    unfold flowsGo at habs
    rcases exceptBind_error habs with hstep | ⟨st1, hstep, hrest⟩
    · exact handleOneFlow_suff recur nodes flows fuel hrecS hrecM flow st hc hstep
    · have hss := handleOneFlow_mono recur hrecM nodes flows flow st st1 hstep
      exact ih st1 (le_trans (unprocessedCount_le nodes st st1 hss) hc) hrest

/-- The fuel discipline of the embedded walk: with more fuel than unvisited
node ids, `_process_flows_from_node` never exhausts its fuel — the Python
recursion always terminates because every recursive call visits a fresh
node out of a finite set. -/
theorem processFlowsFromNode_no_outOfFuel (nodes : List ActivityNode)
    (flows : List ActivityFlow) :
    ∀ fuel : Nat, RecurSuff nodes (processFlowsFromNode nodes flows fuel) fuel := by
  intro fuel
  induction fuel with
  | zero =>
    intro id st h
    exact absurd h (Nat.not_lt_zero _)
  | succ fuel ih =>
    intro id st h
    unfold processFlowsFromNode
    exact flowsGo_suff (processFlowsFromNode nodes flows fuel) nodes flows fuel ih
      (processFlowsFromNode_mono nodes flows fuel) (outgoingFlows flows id) st
      (Nat.lt_succ_iff.mp h)

/-- C6: the linearizer terminates on every activity diagram (the canonical
fuel is never exhausted, because each recursive call marks a fresh node of
the finite node set visited), and a flow whose target is already visited
is skipped by every handler, leaving the state untouched; on the cyclic
diagram `dCycle` the revisited node is emitted once and its second visit
is silently omitted. -/
theorem C6_termination_and_skip :
    (∀ d : ActivityDiagram, generateActivityLines d ≠ .error .outOfFuel) ∧
    (∀ (recur : Int → WalkState → Except WalkErr WalkState)
       (nodes : List ActivityNode) (flows : List ActivityFlow)
       (flow : ActivityFlow) (st : WalkState) (target : ActivityNode),
      nodeLookup nodes flow.target_id = some target →
      target.id ∈ st.processed →
      handleOneFlow recur nodes flows flow st = .ok st) ∧
    (∀ (recur : Int → WalkState → Except WalkErr WalkState)
       (nodes : List ActivityNode) (flow : ActivityFlow) (st : WalkState)
       (target : ActivityNode),
      nodeLookup nodes flow.target_id = some target →
      target.id ∈ st.processed →
      decisionBranchStep recur nodes flow st = .ok st) ∧
    (∀ (recur : Int → WalkState → Except WalkErr WalkState)
       (nodes : List ActivityNode) (flow : ActivityFlow) (st : WalkState)
       (target : ActivityNode),
      nodeLookup nodes flow.target_id = some target →
      target.id ∈ st.processed →
      forkBranchStep recur nodes flow st = .ok st) ∧
    generateActivityLines dCycle =
      .ok ["@startuml", "title D", "", "start", ":A;", ":B;", "@enduml"] := by
  refine ⟨fun d habs => ?_,
    fun recur nodes flows flow st target hlk hmem => ?_,
    fun recur nodes flow st target hlk hmem => ?_,
    fun recur nodes flow st target hlk hmem => ?_, rfl⟩
  · unfold generateActivityLines at habs
    cases hstart : d.nodes.find? (fun n => n.node_type == .start) with
    | none =>
      simp only [hstart] at habs
      cases habs
    | some s =>
      simp only [hstart] at habs
      rcases exceptBind_error habs with hw | ⟨stw, hw, hk⟩
      · refine processFlowsFromNode_no_outOfFuel d.nodes d.flows (d.nodes.length + 1)
          s.id _ ?_ hw
        apply Nat.lt_succ_of_le
        calc unprocessedCount d.nodes
              { lines := activityHeader d ++ ["start"], processed := [s.id] }
            ≤ (nodeIds d.nodes).length := List.length_filter_le _ _
          _ ≤ (d.nodes.map (·.id)).length := (List.dedup_sublist _).length_le
          _ = d.nodes.length := List.length_map _ _
      · cases hk
  · unfold handleOneFlow
    simp only [hlk]
    rw [if_pos hmem]
  · unfold decisionBranchStep
    simp only [hlk]
    rw [if_pos hmem]
  · unfold forkBranchStep
    simp only [hlk]
    rw [if_pos hmem]

theorem C6_witness :
    generateActivityLines dCycle ≠ .error .outOfFuel ∧
    handleOneFlow (processFlowsFromNode dCycle.nodes dCycle.flows 1) dCycle.nodes dCycle.flows
        ⟨3, 2, none⟩ { lines := ["x"], processed := [2] } =
      .ok { lines := ["x"], processed := [2] } :=
  ⟨C6_termination_and_skip.1 dCycle,
   C6_termination_and_skip.2.1 _ dCycle.nodes dCycle.flows ⟨3, 2, none⟩
     { lines := ["x"], processed := [2] } ⟨2, "A", .action, none⟩ rfl (by decide)⟩

/-- A class with a superclass entry in the inheritance mapping is one of
the generalizations' subclasses (a key of the Python dict). -/
theorem inhLookup_some_key (gens : List ClassLayer.Generalization) (s t : String)
    (h : ClassLayer.inhLookup gens s = some t) : s ∈ gens.map (·.subclass) := by
  unfold ClassLayer.inhLookup at h
  rw [Option.map_eq_some'] at h
  obtain ⟨g, hg, _⟩ := h
  have hmem := List.mem_of_find?_eq_some hg
  have hpred := List.find?_some hg
  rw [List.mem_reverse] at hmem
  have hgs : g.subclass = s := by simpa using hpred
  rw [← hgs]
  exact List.mem_map_of_mem _ hmem

/-- Along a wrapped-around chain, every element has a successor inside any
superset of the chain's elements. -/
theorem fcycle_next (f : String → Option String) :
    ∀ (a : String) (rest L : List String) (w : String),
      List.Chain (fun u v => f u = some v) a rest →
      (∀ z ∈ a :: rest, z ∈ L) →
      f ((a :: rest).getLast (by simp)) = some w → w ∈ L →
      ∀ x ∈ a :: rest, ∃ y ∈ L, f x = some y := by
  intro a rest
  induction rest generalizing a with
  | nil =>
    intro L w hchain hL hlast hw x hx
    have hxa : x = a := by simpa using hx
    subst hxa
    exact ⟨w, hw, by simpa using hlast⟩
  | cons b rest ih =>
    intro L w hchain hL hlast hw x hx
    cases hchain with
    | cons hab hbrest =>
      rcases List.mem_cons.mp hx with hxa | hxb
      · subst hxa
        exact ⟨b, hL b (by simp), hab⟩
      · have hlast' : f ((b :: rest).getLast (by simp)) = some w := by
          rw [List.getLast_cons (List.cons_ne_nil b rest)] at hlast
          exact hlast
        exact ih b L w hbrest (fun z hz => hL z (List.mem_cons_of_mem a hz)) hlast' hw x hxb

/-- Starting anywhere on a cycle, the inheritance walk cannot run out
while the cycle still has unvisited elements: it reports a revisit. -/
theorem walk_on_cycle (gens : List ClassLayer.Generalization) (c : String)
    (rest : List String)
    (hcyc : ClassLayer.IsFCycle (ClassLayer.inhLookup gens) c rest) :
    ∀ (fuel : Nat) (path : List String) (curr : String),
      curr ∈ c :: rest → curr ∈ path →
      ((c :: rest).filter (fun x => decide (x ∉ path))).length < fuel →
      ClassLayer.walkInheritance gens fuel path curr ≠ none := by
  obtain ⟨hchain, hwrap⟩ := hcyc
  intro fuel
  induction fuel with
  | zero =>
    intro path curr hcurr hpath hlt
    exact absurd hlt (Nat.not_lt_zero _)
  | succ fuel ih =>
    intro path curr hcurr hpath hlt
    obtain ⟨next, hnextL, hf⟩ := fcycle_next (ClassLayer.inhLookup gens) c rest (c :: rest) c
      hchain (fun z hz => hz) hwrap (by simp) curr hcurr
    intro habs
    simp only [ClassLayer.walkInheritance, hf] at habs
    by_cases hn : next ∈ path
    · rw [if_pos hn] at habs
      cases habs
    · rw [if_neg hn] at habs
      have hdec := count_cons_lt (c :: rest) path next hnextL hn
      exact ih (next :: path) next hnextL (by simp) (by omega) habs

/-- When the inheritance walk reports a revisited class, that class heads
an actual simple cycle of the mapping (the freshly closed loop segment of
the walk's path). -/
theorem walk_some_cycle (gens : List ClassLayer.Generalization) :
    ∀ (fuel : Nat) (path : List String) (curr r : String),
      path.head? = some curr → path.Nodup →
      List.Chain' (fun a b => ClassLayer.inhLookup gens b = some a) path →
      ClassLayer.walkInheritance gens fuel path curr = some r →
      ∃ rest, (r :: rest).Nodup ∧ ClassLayer.IsFCycle (ClassLayer.inhLookup gens) r rest := by
  intro fuel
  induction fuel with
  | zero =>
    intro path curr r hhead hnd hch habs
    simp only [ClassLayer.walkInheritance] at habs
    exact Option.noConfusion habs
  | succ fuel ih =>
    intro path curr r hhead hnd hch habs
    cases hf : ClassLayer.inhLookup gens curr with
    | none =>
      simp only [ClassLayer.walkInheritance, hf] at habs
      exact Option.noConfusion habs
    | some next =>
      simp only [ClassLayer.walkInheritance, hf] at habs
      by_cases hn : next ∈ path
      · rw [if_pos hn] at habs
        injection habs with hr
        subst hr
        obtain ⟨p₁, p₂, hsplit⟩ := List.append_of_mem hn
        have hsplit' : path = (p₁ ++ [next]) ++ p₂ := by simpa using hsplit
        have hchseg : List.Chain' (fun a b => ClassLayer.inhLookup gens b = some a)
            (p₁ ++ [next]) := by
          rw [hsplit'] at hch
          exact (List.chain'_append.mp hch).1
        have hheadseg : (p₁ ++ [next]).head? = some curr := by
          rw [hsplit', List.head?_append] at hhead
          cases hps : (p₁ ++ [next]).head? with
          | none => exact absurd hps (by simp)
          | some z =>
            rw [hps] at hhead
            simpa using hhead
        refine ⟨p₁.reverse, ?_, ?_, ?_⟩
        · have hseg : (p₁ ++ [next]).Nodup := by
            rw [hsplit'] at hnd
            exact List.Nodup.of_append_left hnd
          have h2 : (p₁ ++ [next]).reverse.Nodup := by
            rw [List.nodup_reverse]
            exact hseg
          simpa [List.reverse_append] using h2
        · have hrev : List.Chain' (fun a b => ClassLayer.inhLookup gens a = some b)
              ((p₁ ++ [next]).reverse) := by
            rw [List.chain'_reverse]
            exact hchseg
          have hrev' : List.Chain' (fun a b => ClassLayer.inhLookup gens a = some b)
              (next :: p₁.reverse) := by
            simpa [List.reverse_append] using hrev
          exact hrev'
        · have h1 : (next :: p₁.reverse) = (p₁ ++ [next]).reverse := by
            simp [List.reverse_append]
          have hget : (next :: p₁.reverse).getLast (by simp) = curr := by
            rw [show ∀ h, (next :: p₁.reverse).getLast h =
                ((p₁ ++ [next]).reverse).getLast (by simp) from ?_]
            · rw [List.getLast_reverse]
              have hh := hheadseg
              rw [List.head?_eq_head (by simp)] at hh
              injection hh with hh'
            · intro h
              congr 1
          rw [hget]
          exact hf
      · rw [if_neg hn] at habs
        obtain ⟨ps, hps⟩ : ∃ ps, path = curr :: ps := by
          cases path with
          | nil => cases hhead
          | cons p ps =>
            refine ⟨ps, ?_⟩
            injection hhead with h1
            rw [h1]
        refine ih (next :: path) next r rfl (List.nodup_cons.mpr ⟨hn, hnd⟩) ?_ habs
        rw [hps]
        exact List.chain'_cons.mpr ⟨hf, hps ▸ hch⟩

/-- Membership in the first-occurrence key list of the inheritance dict. -/
theorem mem_dictKeys (l : List String) (x : String) :
    x ∈ ClassLayer.dictKeys l ↔ x ∈ l := by
  have hgen : ∀ (l acc : List String),
      (x ∈ l.foldl (fun acc s => if s ∈ acc then acc else acc ++ [s]) acc ↔
        x ∈ acc ∨ x ∈ l) := by
    intro l
    induction l with
    | nil =>
      intro acc
      simp
    | cons a l ih =>
      intro acc
      rw [List.foldl_cons, ih]
      by_cases ha : a ∈ acc
      · rw [if_pos ha]
        constructor
        · rintro (h | h)
          · exact Or.inl h
          · exact Or.inr (List.mem_cons_of_mem _ h)
        · rintro (h | h)
          · exact Or.inl h
          · rcases List.mem_cons.mp h with rfl | h2
            · exact Or.inl ha
            · exact Or.inr h2
      · rw [if_neg ha]
        simp only [List.mem_append, List.mem_singleton, List.mem_cons]
        tauto
  exact (hgen l []).trans (by simp)

/-- A duplicate-free list included in another list is no longer than it. -/
theorem nodup_length_le_of_subset {α : Type} [DecidableEq α] (l l' : List α)
    (hnd : l.Nodup) (hsub : l ⊆ l') : l.length ≤ l'.length := by
  calc l.length = l.toFinset.card := (List.toFinset_card_of_nodup hnd).symm
    _ ≤ l'.toFinset.card := Finset.card_le_card (fun x hx => by
        rw [List.mem_toFinset] at hx ⊢
        exact hsub hx)
    _ ≤ l'.length := List.toFinset_card_le l'

/-- A mapping admitting a strictly decreasing rank has no cycle. -/
theorem chain_rank_le (f : String → Option String) (rank : String → Nat)
    (hr : ∀ a b, f a = some b → rank b < rank a) :
    ∀ (l : List String) (a : String), List.Chain (fun u v => f u = some v) a l →
      rank ((a :: l).getLast (by simp)) ≤ rank a := by
  intro l
  induction l with
  | nil =>
    intro a h
    simp
  | cons b l ih =>
    intro a h
    cases h with
    | cons hab hbl =>
      have h1 := ih b hbl
      rw [List.getLast_cons (List.cons_ne_nil b l)]
      exact le_trans h1 (le_of_lt (hr a b hab))

theorem no_cycle_of_rank (f : String → Option String) (rank : String → Nat)
    (hr : ∀ a b, f a = some b → rank b < rank a) :
    ¬ ClassLayer.CycleExists f := by
  rintro ⟨c, rest, hnd, hchain, hwrap⟩
  have h1 := chain_rank_le f rank hr rest c hchain
  have h2 := hr _ _ hwrap
  exact absurd (Nat.lt_of_lt_of_le h2 h1) (lt_irrefl _)

/-- C4: if the generalization mapping of an otherwise well-formed class
diagram contains a cycle, validation fails with `CyclicInheritance` naming
a class lying on a cycle of that mapping; and on a cycle-free mapping the
acyclicity check accepts, whatever the chain depth. -/
theorem C4_inheritance_cycles :
    (∀ cd : ClassLayer.ClassDiagram,
      (cd.classes.map (·.name)).dedup.length = cd.classes.length →
      ClassLayer.checkEndpoints cd (cd.classes.map (·.name)) = none →
      ClassLayer.CycleExists (ClassLayer.inhLookup cd.generalizations) →
      ∃ c, cd.validate = .error (.circularInheritance c) ∧
        ClassLayer.OnCycle (ClassLayer.inhLookup cd.generalizations) c) ∧
    (∀ gens : List ClassLayer.Generalization,
      ¬ ClassLayer.CycleExists (ClassLayer.inhLookup gens) →
      ClassLayer.checkCycles gens = none) := by
  constructor
  · intro cd h1 h2 hcyc
    obtain ⟨c0, rest, hnd, hfc⟩ := hcyc
    have hkeys : ∀ x ∈ c0 :: rest, x ∈ cd.generalizations.map (·.subclass) := by
      intro x hx
      obtain ⟨y, hy, hfx⟩ := fcycle_next (ClassLayer.inhLookup cd.generalizations) c0 rest
        (c0 :: rest) c0 hfc.1 (fun z hz => hz) hfc.2 (by simp) x hx
      exact inhLookup_some_key _ _ _ hfx
    have hwalk : ClassLayer.walkInheritance cd.generalizations
        (cd.generalizations.length + 1) [c0] c0 ≠ none := by
      apply walk_on_cycle cd.generalizations c0 rest hfc _ [c0] c0 (by simp) (by simp)
      have hlen : (c0 :: rest).length ≤ cd.generalizations.length := by
        have hle := nodup_length_le_of_subset (c0 :: rest)
          (cd.generalizations.map (·.subclass)) hnd (fun x hx => hkeys x hx)
        simpa using hle
      have hfl := List.length_filter_le (fun x => decide (x ∉ ([c0] : List String)))
        (c0 :: rest)
      omega
    have hsome : ∃ re, ClassLayer.checkCycles cd.generalizations = some re := by
      rw [← Option.ne_none_iff_exists']
      intro hnone
      unfold ClassLayer.checkCycles at hnone
      rw [List.findSome?_eq_none_iff] at hnone
      exact hwalk (hnone c0 ((mem_dictKeys _ _).mpr (hkeys c0 (by simp))))
    obtain ⟨re, hre⟩ := hsome
    have hronc : ClassLayer.OnCycle (ClassLayer.inhLookup cd.generalizations) re := by
      unfold ClassLayer.checkCycles at hre
      obtain ⟨s, hs, hws⟩ := List.exists_of_findSome?_eq_some hre
      obtain ⟨rest', hnd', hfc'⟩ := walk_some_cycle cd.generalizations _ [s] s re rfl
        (by simp) (by simp) hws
      exact ⟨re, rest', hnd', hfc', by simp⟩
    refine ⟨re, ?_, hronc⟩
    unfold ClassLayer.ClassDiagram.validate
    rw [if_neg (fun hne => hne h1)]
    simp only [h2, hre]
  · intro gens hnocyc
    unfold ClassLayer.checkCycles
    rw [List.findSome?_eq_none_iff]
    intro s hs
    by_contra hne
    obtain ⟨r, hr⟩ := Option.ne_none_iff_exists'.mp hne
    obtain ⟨rest, hnd, hfc⟩ := walk_some_cycle gens _ [s] s r rfl (by simp) (by simp) hr
    exact hnocyc ⟨r, rest, hnd, hfc⟩

theorem C4_witness :
    (∃ c, ClassLayer.ClassDiagram.validate cdCyc = .error (.circularInheritance c) ∧
       ClassLayer.OnCycle (ClassLayer.inhLookup cdCyc.generalizations) c) ∧
    ClassLayer.checkCycles cdChain.generalizations = none := by
  constructor
  · apply C4_inheritance_cycles.1 cdCyc (by decide) rfl
    exact ⟨"A", ["B", "C"], by decide,
      ⟨List.Chain.cons rfl (List.Chain.cons rfl List.Chain.nil), rfl⟩⟩
  · apply C4_inheritance_cycles.2
    apply no_cycle_of_rank _
      (fun s => if s = "A" then 0 else if s = "B" then 1 else if s = "C" then 2 else 3)
    intro a b h
    by_cases hb : a = "B"
    · subst hb
      have hv : ClassLayer.inhLookup cdChain.generalizations "B" = some "A" := rfl
      rw [hv] at h
      injection h with hb'
      subst hb'
      decide
    · by_cases hc : a = "C"
      · subst hc
        have hv : ClassLayer.inhLookup cdChain.generalizations "C" = some "B" := rfl
        rw [hv] at h
        injection h with hb'
        subst hb'
        decide
      · by_cases hd : a = "D"
        · subst hd
          have hv : ClassLayer.inhLookup cdChain.generalizations "D" = some "C" := rfl
          rw [hv] at h
          injection h with hb'
          subst hb'
          decide
        · have hnone : ClassLayer.inhLookup cdChain.generalizations a = none := by
            unfold ClassLayer.inhLookup
            rw [List.find?_eq_none.mpr ?_]
            · rfl
            · intro g hg
              rw [List.mem_reverse] at hg
              have hcases : g = (⟨"B", "A"⟩ : ClassLayer.Generalization) ∨
                  g = ⟨"C", "B"⟩ ∨ g = ⟨"D", "C"⟩ := by
                simpa [cdChain] using hg
              intro hpred
              rcases hcases with rfl | rfl | rfl
              · have hba : "B" = a := by simpa using hpred
                exact hb hba.symm
              · have hca : "C" = a := by simpa using hpred
                exact hc hca.symm
              · have hda : "D" = a := by simpa using hpred
                exact hd hda.symm
          rw [hnone] at h
          cases h
